import Mathlib

/-!
# Admission control and error classification (mimir fragment)

A shallow embedding of

* `pkg/storegateway/limiter.go` : `Limiter`, `NewLimiter`, `Limiter.Reserve`;
* `pkg/ingester/errors.go` : `validationError`, `makeLimitError`,
  `makeMetricLimitError`, `validationError.Error`, `wrapWithUser`, `tooBusyError`;
* `vendor/github.com/grafana/dskit/tracing/tracing.go` : `parseJaegerTags`,
  `parseTracingConfig`, `NewFromEnv`;
* `pkg/util/httpgrpcutil/middleware/grpc_instrumentation.go` :
  `OpenTracingHTTPGRPCUnaryServerInterceptor`.

Machine integers (`uint64`) are natural numbers reduced modulo `2 ^ 64` at the
places where the Go code performs arithmetic on them.
-/

namespace Mimir

/-! ## Go runtime pieces used by the code -/

/-- Number of values of a Go `uint64`: arithmetic on the type wraps modulo this. -/
def uint64Size : Nat := 18446744073709551616

/-- The Go conversion `string(num)` of an integer value: the UTF-8 text of the code point `num`,
and the replacement character U+FFFD when `num` is not a valid Unicode code point. -/
def goStringOfInt (num : Nat) : String :=
  if Nat.isValidChar num then String.singleton (Char.ofNat num)
  else String.singleton (Char.ofNat 65533)

/-- The constant `http.StatusBadRequest`. -/
def StatusBadRequest : Int := 400

/-- The constant `http.StatusUnprocessableEntity`. -/
def StatusUnprocessableEntity : Int := 422

/-- The constant `http.StatusServiceUnavailable`. -/
def StatusServiceUnavailable : Int := 503

/-- The error value built by `httpgrpc.Errorf(code, tmpl, args...)`: an HTTP-over-gRPC response
with the status code and the formatted text as its body. -/
structure HTTPGRPCError where
  code : Int
  body : String
  deriving DecidableEq, Repr

/-- The call `httpgrpc.Errorf(code, "limit %v exceeded", limit)`; `%v` prints a `uint64` in
decimal. -/
def limitExceededErrorf (code : Int) (limit : Nat) : HTTPGRPCError :=
  { code := code, body := "limit " ++ toString limit ++ " exceeded" }

/-- A non-nil Go `error` value, represented by the text its `Error()` method returns (the only
thing the code below asks of it). -/
structure GoError where
  text : String
  deriving DecidableEq, Repr

/-- The `Error()` method of an error value. -/
def GoError.Error (e : GoError) : String := e.text

/-- The rendering by `fmt` of an `error` operand under the verb `%s`: the `Error()` text, and
`%!s(<nil>)` for a nil operand. -/
def fmtErrorOperand : Option GoError → String
  | some e => e.Error
  | none => "%!s(<nil>)"

/-! ## `pkg/storegateway/limiter.go` -/

namespace storegateway

/-- One record handed to the logger by `level.Warn(l.logger).Log(...)` inside `Reserve`:
the key/value pairs in the order of the call. -/
structure LogRecord where
  level : String
  source : String
  func : String
  msg : String
  reserved : Nat
  limit : Nat
  status : String
  deriving DecidableEq, Repr

/-- The `Limiter` struct. `failedCounter` is the value of the Prometheus counter behind the
handle (the number of `Inc` calls it has received), `failedOnce` is the done flag of the
`sync.Once`, and `logger` is `none` for a nil logger and otherwise the records the logger has
received so far. -/
structure Limiter where
  limit : Nat
  reserved : Nat
  failedCounter : Nat
  failedOnce : Bool
  logger : Option (List LogRecord)
  deriving DecidableEq, Repr

/-- The constructor `NewLimiter(limit, ctr, logger)`: `reserved` and `failedOnce` have their zero values. -/
def NewLimiter (limit : Nat) (ctr : Nat) (logger : Option (List LogRecord)) : Limiter :=
  { limit := limit, reserved := 0, failedCounter := ctr, failedOnce := false, logger := logger }

/-- The call `l.reserved.Add(num)` on an `atomic.Uint64`: stores and returns the wrapped sum. -/
def Limiter.reservedAdd (l : Limiter) (num : Nat) : Limiter × Nat :=
  let r := (l.reserved + num) % uint64Size
  ({ l with reserved := r }, r)

/-- The call `l.failedOnce.Do(l.failedCounter.Inc)`: the first call runs `Inc`, later calls do nothing. -/
def Limiter.failedOnceDo (l : Limiter) : Limiter :=
  if l.failedOnce then l
  else { l with failedOnce := true, failedCounter := l.failedCounter + 1 }

/-- The record of the `level.Warn(l.logger).Log(...)` call in `Reserve`; `reserved` is the value
returned by `l.reserved.Load()`. -/
def reserveRecord (num reserved limit : Nat) (status : String) : LogRecord :=
  { level := "warn", source := "limiter.go", func := "Reserve",
    msg := "Adding " ++ goStringOfInt num ++ " elements to the limiter",
    reserved := reserved, limit := limit, status := status }

/-- The guarded log call `if l.logger != nil { level.Warn(l.logger).Log(...) }`. -/
def Limiter.logReserve (l : Limiter) (num : Nat) (status : String) : Limiter :=
  match l.logger with
  | none => l
  | some recs => { l with logger := some (recs ++ [reserveRecord num l.reserved l.limit status]) }

/-- The method `Limiter.Reserve(num)`, run to completion without interference: the limiter afterwards and
the returned error (`none` is `nil`). -/
def Limiter.Reserve (l : Limiter) (num : Nat) : Limiter × Option HTTPGRPCError :=
  if l.limit = 0 then (l, none)
  else
    let (l1, reserved) := l.reservedAdd num
    if reserved > l1.limit then
      let l2 := l1.failedOnceDo
      let l3 := l2.logReserve num "FAILED"
      (l3, some (limitExceededErrorf StatusUnprocessableEntity l3.limit))
    else if num ≠ 0 then (l1.logReserve num "OK", none)
    else (l1, none)

/-- A sequence of `Reserve` calls on one instance, in order: the final limiter and the list of
returned errors, one per call. -/
def reserveAll (l : Limiter) : List Nat → Limiter × List (Option HTTPGRPCError)
  | [] => (l, [])
  | num :: rest =>
    let (l1, e) := l.Reserve num
    let (l2, es) := reserveAll l1 rest
    (l2, e :: es)

/-! ### Interleaved execution of `Reserve`

Concurrent callers are goroutines that each run `Reserve(num)`; one step of a goroutine is the
code up to and including its next access to the shared limiter (`reserved.Add`,
`failedOnce.Do`, `reserved.Load`, the `Log` call of the logger). -/

/-- Where a goroutine stands inside `Reserve(num)`. -/
inductive Phase where
  /-- The call has not started. -/
  | start
  /-- The call `l.reserved.Add(num)` has returned `reserved`. -/
  | added (reserved : Nat)
  /-- On the failing branch, `l.failedOnce.Do(...)` has returned. -/
  | onceDone
  /-- The call `l.reserved.Load()` has returned `v` for the log call (`failed` tells the branch). -/
  | loaded (failed : Bool) (v : Nat)
  /-- The call to `Reserve` has returned `err`. -/
  | finished (err : Option HTTPGRPCError)
  deriving DecidableEq, Repr

/-- Whether the call has returned. -/
def Phase.isFinished : Phase → Bool
  | .finished _ => true
  | _ => false

/-- A goroutine running `Reserve(num)`. -/
structure Goroutine where
  num : Nat
  phase : Phase
  deriving DecidableEq, Repr

/-- One step of a goroutine on the shared limiter. -/
def Goroutine.step (l : Limiter) (g : Goroutine) : Limiter × Goroutine :=
  match g.phase with
  | .start =>
    if l.limit = 0 then (l, { g with phase := .finished none })
    else
      let (l1, reserved) := l.reservedAdd g.num
      (l1, { g with phase := .added reserved })
  | .added reserved =>
    if reserved > l.limit then (l.failedOnceDo, { g with phase := .onceDone })
    else if g.num ≠ 0 ∧ l.logger.isSome then (l, { g with phase := .loaded false l.reserved })
    else (l, { g with phase := .finished none })
  | .onceDone =>
    if l.logger.isSome then (l, { g with phase := .loaded true l.reserved })
    else (l, { g with phase := .finished (some (limitExceededErrorf StatusUnprocessableEntity l.limit)) })
  | .loaded failed v =>
    let status := if failed then "FAILED" else "OK"
    let l1 := { l with logger := l.logger.map fun recs => recs ++ [reserveRecord g.num v l.limit status] }
    let err := if failed then some (limitExceededErrorf StatusUnprocessableEntity l.limit) else none
    (l1, { g with phase := .finished err })
  | .finished err => (l, { g with phase := .finished err })

/-- The shared limiter and the goroutines calling `Reserve` on it. -/
structure Config where
  limiter : Limiter
  goroutines : List Goroutine
  deriving DecidableEq, Repr

/-- Goroutine `i` takes its next step (nothing happens when there is no goroutine `i`). -/
def Config.step (c : Config) (i : Nat) : Config :=
  match c.goroutines.get? i with
  | none => c
  | some g =>
    let (l, g1) := g.step c.limiter
    { limiter := l, goroutines := c.goroutines.set i g1 }

/-- Run a schedule: the list of goroutine indices in the order in which they take steps. -/
def Config.run (c : Config) (sched : List Nat) : Config :=
  sched.foldl Config.step c

/-- One goroutine per argument, none started yet. -/
def spawn (l : Limiter) (nums : List Nat) : Config :=
  { limiter := l, goroutines := nums.map fun num => { num := num, phase := .start } }

/-- Every goroutine has returned from `Reserve`. -/
def Config.allFinished (c : Config) : Bool :=
  c.goroutines.all fun g => g.phase.isFinished

/-- What a goroutine has added to `reserved` so far: nothing before its `Add`, `num` after. -/
def Goroutine.contribution (g : Goroutine) : Nat :=
  match g.phase with
  | .start => 0
  | _ => g.num

/-- The sum of the arguments of the goroutines that have performed their `Add`. -/
def addedSum (gs : List Goroutine) : Nat :=
  (gs.map Goroutine.contribution).sum

/-! ### `Limiter.Log` and the limiter factories -/

/-- An argument handed to the `Log` method of a go-kit logger. -/
inductive LogArg where
  /-- A single value (a key or a value of a pair). -/
  | value (s : String)
  /-- A whole `[]interface{}` slice passed as one argument. -/
  | slice (vs : List String)
  /-- The placeholder `log.ErrMissingValue` that go-kit appends to an odd argument list. -/
  | missingValue
  deriving DecidableEq, Repr

/-- The call `level.Warn(logger).Log(args...)`: go-kit wraps `logger` in a context carrying the
prefix `level=warn`, whose `Log` pads an odd argument list with `ErrMissingValue` and then calls
`Log` on the wrapped logger. The result is the argument list the wrapped logger receives, and
`none` when the wrapped logger is nil, where that call is a nil dereference and panics. -/
def levelWarnLog (logger : Option (List LogRecord)) (args : List LogArg) : Option (List LogArg) :=
  match logger with
  | none => none
  | some _ =>
    let kvs := [LogArg.value "level", LogArg.value "warn"] ++ args
    some (if kvs.length % 2 ≠ 0 then kvs ++ [LogArg.missingValue] else kvs)

/-- The method `Limiter.Log(keyvals...)`: `level.Warn(l.logger).Log(keyvals)`, which passes the
slice `keyvals` as a single argument. The result is `none` when the call panics. -/
def Limiter.Log (l : Limiter) (keyvals : List String) : Option (List LogArg) :=
  levelWarnLog l.logger [LogArg.slice keyvals]

/-- The function `NewChunksLimiterFactory(limitsExtractor, logger)`. The extractor is a Go
closure `func() uint64`; it is modelled as a function on the state `σ` it reads and changes, so
that each of its calls shows in the state. The factory takes the failure counter and that state. -/
def NewChunksLimiterFactory {σ : Type} (limitsExtractor : σ → Nat × σ)
    (logger : Option (List LogRecord)) : Nat → σ → Limiter × σ :=
  fun failedCounter s =>
    let (limit, s1) := limitsExtractor s
    (NewLimiter limit failedCounter logger, s1)

/-- The function `NewSeriesLimiterFactory(limitsExtractor, logger)`, modelled like
`NewChunksLimiterFactory`. -/
def NewSeriesLimiterFactory {σ : Type} (limitsExtractor : σ → Nat × σ)
    (logger : Option (List LogRecord)) : Nat → σ → Limiter × σ :=
  fun failedCounter s =>
    let (limit, s1) := limitsExtractor s
    (NewLimiter limit failedCounter logger, s1)

/-- Whether the goroutine has observed `reserved > limit` and gone through `failedOnce.Do`. -/
def Phase.observedFailure : Phase → Bool
  | .onceDone => true
  | .loaded failed _ => failed
  | .finished err => err.isSome
  | _ => false

/-! ### Interleaved execution with the mutex of `sync.Once`

In the Go standard library `o.Do(f)` is `if o.done.Load() == 0 { o.doSlow(f) }`, and
`o.doSlow(f)` is `o.m.Lock(); defer o.m.Unlock(); if o.done.Load() == 0 { defer
o.done.Store(1); f() }`. The steps below are the accesses to the shared limiter as before, with
`failedOnce.Do(l.failedCounter.Inc)` taken apart into these accesses; `Limiter.failedOnce` is
the flag `done`. A goroutine that calls `Lock` while another one holds the mutex waits. -/

/-- Where a goroutine stands inside `Reserve(num)`, the inside of `failedOnce.Do` included. -/
inductive OncePhase where
  /-- The call has not started. -/
  | start
  /-- The call `l.reserved.Add(num)` has returned `reserved`. -/
  | added (reserved : Nat)
  /-- The fast path of `Do` has read `done == 0`; next is `o.m.Lock()`. -/
  | onceSlow
  /-- The goroutine holds `o.m`; next is the second read of `done` and, if it is 0, `f()`. -/
  | onceLocked
  /-- The call `f()`, which is `l.failedCounter.Inc()`, has returned; next is the deferred
  `o.done.Store(1)`. -/
  | onceRan
  /-- Next is the deferred `o.m.Unlock()`. -/
  | onceUnlock
  /-- The call `l.failedOnce.Do(...)` has returned. -/
  | onceDone
  /-- The call `l.reserved.Load()` has returned `v` for the log call (`failed` tells the branch). -/
  | loaded (failed : Bool) (v : Nat)
  /-- The call to `Reserve` has returned `err`. -/
  | finished (err : Option HTTPGRPCError)
  deriving DecidableEq, Repr

/-- Whether the goroutine has to wait: it is about to lock the mutex of `failedOnce` and
another goroutine holds it. -/
def OncePhase.waits (holder : Option Nat) : OncePhase → Bool
  | .onceSlow => holder.isSome
  | _ => false

/-- Whether the goroutine is between `o.m.Lock()` and `o.m.Unlock()`. -/
def OncePhase.inGate : OncePhase → Bool
  | .onceLocked => true
  | .onceRan => true
  | .onceUnlock => true
  | _ => false

/-- Whether the goroutine has called `f()` and not yet stored `done`. -/
def OncePhase.isRan : OncePhase → Bool
  | .onceRan => true
  | _ => false

/-- Whether the goroutine has got past the store of `done` or has seen `done` set. -/
def OncePhase.late : OncePhase → Bool
  | .onceUnlock => true
  | .onceDone => true
  | .loaded failed _ => failed
  | .finished err => err.isSome
  | _ => false

/-- Whether the goroutine has got past the point of `Do` where `f()` is called or skipped. -/
def OncePhase.pastCall (p : OncePhase) : Bool := p.isRan || p.late

/-- Whether the call has returned. -/
def OncePhase.isFinished : OncePhase → Bool
  | .finished _ => true
  | _ => false

/-- A goroutine running `Reserve(num)`. -/
structure OnceGoroutine where
  num : Nat
  phase : OncePhase
  deriving DecidableEq, Repr

/-- One step of goroutine number `i` on the shared limiter and the mutex of `failedOnce`, whose
holder is `holder` (`none` when it is free). A goroutine that has to wait stays as it is. -/
def OnceGoroutine.step (i : Nat) (l : Limiter) (holder : Option Nat) (g : OnceGoroutine) :
    Limiter × Option Nat × OnceGoroutine :=
  match g.phase with
  | .start =>
    if l.limit = 0 then (l, holder, { g with phase := .finished none })
    else
      let (l1, reserved) := l.reservedAdd g.num
      (l1, holder, { g with phase := .added reserved })
  | .added reserved =>
    if reserved > l.limit then
      if l.failedOnce then (l, holder, { g with phase := .onceDone })
      else (l, holder, { g with phase := .onceSlow })
    else if g.num ≠ 0 ∧ l.logger.isSome then
      (l, holder, { g with phase := .loaded false l.reserved })
    else (l, holder, { g with phase := .finished none })
  | .onceSlow =>
    match holder with
    | some _ => (l, holder, g)
    | none => (l, some i, { g with phase := .onceLocked })
  | .onceLocked =>
    if l.failedOnce then (l, holder, { g with phase := .onceUnlock })
    else ({ l with failedCounter := l.failedCounter + 1 }, holder, { g with phase := .onceRan })
  | .onceRan => ({ l with failedOnce := true }, holder, { g with phase := .onceUnlock })
  | .onceUnlock => (l, none, { g with phase := .onceDone })
  | .onceDone =>
    if l.logger.isSome then (l, holder, { g with phase := .loaded true l.reserved })
    else (l, holder,
      { g with phase := .finished (some (limitExceededErrorf StatusUnprocessableEntity l.limit)) })
  | .loaded failed v =>
    let status := if failed then "FAILED" else "OK"
    let l1 := { l with logger := l.logger.map fun recs => recs ++ [reserveRecord g.num v l.limit status] }
    let err := if failed then some (limitExceededErrorf StatusUnprocessableEntity l.limit) else none
    (l1, holder, { g with phase := .finished err })
  | .finished err => (l, holder, { g with phase := .finished err })

/-- The shared limiter, the holder of the mutex of its `failedOnce`, and the goroutines calling
`Reserve` on it. -/
structure OnceConfig where
  limiter : Limiter
  onceHolder : Option Nat
  goroutines : List OnceGoroutine
  deriving DecidableEq, Repr

/-- Goroutine `i` is scheduled: it takes its next step, or stays where it is when it has to
wait (nothing happens when there is no goroutine `i`). -/
def OnceConfig.step (c : OnceConfig) (i : Nat) : OnceConfig :=
  match c.goroutines[i]? with
  | none => c
  | some g =>
    let (l, holder, g1) := g.step i c.limiter c.onceHolder
    { limiter := l, onceHolder := holder, goroutines := c.goroutines.set i g1 }

/-- Run a schedule: the list of goroutine indices in the order in which they are scheduled. -/
def OnceConfig.run (c : OnceConfig) (sched : List Nat) : OnceConfig :=
  sched.foldl OnceConfig.step c

/-- One goroutine per argument, none started yet, the mutex free. -/
def spawnOnce (l : Limiter) (nums : List Nat) : OnceConfig :=
  { limiter := l, onceHolder := none,
    goroutines := nums.map fun num => { num := num, phase := .start } }

end storegateway

/-! ## `pkg/ingester/errors.go` -/

namespace ingester

/-- A Prometheus label set `labels.Labels`: the ordered name/value pairs. -/
structure Labels where
  pairs : List (String × String)
  deriving DecidableEq, Repr

/-- The method `labels.Labels.IsEmpty()`. -/
def Labels.IsEmpty (ls : Labels) : Bool := ls.pairs.isEmpty

/-- The zero value of `labels.Labels`. -/
def Labels.zero : Labels := { pairs := [] }

/-- The `validationError` struct; `err` is `none` for a nil underlying error. -/
structure validationError where
  err : Option GoError
  code : Int
  labels : Labels
  deriving DecidableEq, Repr

/-- The parts of the `Limiter` of package ingester that `errors.go` calls: `FormatError` and the
`WrapError` method of its `sampler`. Both are declared outside this fragment and are taken as
given; `ε` is the type of what the sampler returns. -/
structure Limiter (ε : Type) where
  FormatError : String → Option GoError → Option GoError
  samplerWrapError : validationError → ε

/-- The function `makeLimitError(limiter, userID, err)`. -/
def makeLimitError {ε : Type} (limiter : Limiter ε) (userID : String) (err : Option GoError) : ε :=
  limiter.samplerWrapError
    { err := limiter.FormatError userID err, code := StatusBadRequest, labels := Labels.zero }

/-- The function `makeMetricLimitError(limiter, userID, labels, err)`. -/
def makeMetricLimitError {ε : Type} (limiter : Limiter ε) (userID : String) (labels : Labels)
    (err : Option GoError) : ε :=
  limiter.samplerWrapError
    { err := limiter.FormatError userID err, code := StatusBadRequest, labels := labels }

/-- The method `validationError.Error()`, given the text form `labels.Labels.String()` of a label set.
The result is `none` when the call panics on a nil underlying error. -/
def validationError.Error (labelsString : Labels → String) (e : validationError) : Option String :=
  if e.labels.IsEmpty then e.err.map GoError.Error
  else e.err.map fun c => c.Error ++ " This is for series " ++ labelsString e.labels

/-- The function `wrapWithUser(err, userID)`: the error built by `fmt.Errorf("user=%s: %s", userID, err)`. -/
def wrapWithUser (err : Option GoError) (userID : String) : GoError :=
  { text := "user=" ++ userID ++ ": " ++ fmtErrorOperand err }

/-- The package variable `tooBusyError`:
`httpgrpc.Errorf(http.StatusServiceUnavailable, "the ingester is currently too busy ...")`. -/
def tooBusyError : HTTPGRPCError :=
  { code := StatusServiceUnavailable,
    body := "the ingester is currently too busy to process queries, try again later" }

end ingester

/-! ## `vendor/github.com/grafana/dskit/tracing/tracing.go` -/

namespace tracing

/-- What the code asks of the Go runtime and standard library: the process environment and the
library functions whose results it only passes on. -/
structure Runtime where
  /-- The function `os.Getenv`: the value of a variable, `""` when it is unset. -/
  getenv : String → String
  /-- The call `url.ParseRequestURI(e)` followed by `u.String()` on success. -/
  parseRequestURI : String → Except GoError String
  /-- The call `strconv.ParseFloat(e, 64)`; a `float64` is represented by the rational number
  it denotes. -/
  parseFloat : String → Except GoError ℚ
  /-- The text `fmt` prints for a `float64` under the verb `%v`. -/
  formatFloat : ℚ → String
  /-- The text `fmt` prints for a string under the verb `%q`. -/
  quote : String → String

/-- The variable `ErrBlankTraceConfiguration`. -/
def ErrBlankTraceConfiguration : GoError :=
  { text := "no trace report agent, config server, or collector endpoint specified" }

/-- The constant `envJaegerAgentHost`. -/
def envJaegerAgentHost : String := "JAEGER_AGENT_HOST"

/-- The constant `envJaegerTags`. -/
def envJaegerTags : String := "JAEGER_TAGS"

/-- The constant `envJaegerSamplerManagerHostPort`. -/
def envJaegerSamplerManagerHostPort : String := "JAEGER_SAMPLER_MANAGER_HOST_PORT"

/-- The constant `envJaegerSamplerParam`. -/
def envJaegerSamplerParam : String := "JAEGER_SAMPLER_PARAM"

/-- The constant `envJaegerEndpoint`. -/
def envJaegerEndpoint : String := "JAEGER_ENDPOINT"

/-- The constant `envJaegerAgentPort`. -/
def envJaegerAgentPort : String := "JAEGER_AGENT_PORT"

/-- The constant `envJaegerSamplerType`. -/
def envJaegerSamplerType : String := "JAEGER_SAMPLER_TYPE"

/-- The constant `envJaegerSamplingEndpoint`. -/
def envJaegerSamplingEndpoint : String := "JAEGER_SAMPLING_ENDPOINT"

/-- The constant `envJaegerDefaultSamplingServerPort`. -/
def envJaegerDefaultSamplingServerPort : Nat := 5778

/-- The constant `envJaegerDefaultUDPSpanServerHost`. -/
def envJaegerDefaultUDPSpanServerHost : String := "localhost"

/-- The constant `envJaegerDefaultUDPSpanServerPort`. -/
def envJaegerDefaultUDPSpanServerPort : String := "6831"

/-! ### The `strings` functions used by `parseJaegerTags`

Separators are single ASCII characters, so working on the characters of a string gives the same
result as working on its bytes. -/

/-- The pieces of a character list between the occurrences of `sep`. -/
def splitChars (sep : Char) : List Char → List (List Char)
  | [] => [[]]
  | c :: cs =>
    if c = sep then [] :: splitChars sep cs
    else
      match splitChars sep cs with
      | [] => [[c]]
      | piece :: pieces => (c :: piece) :: pieces

/-- The call `strings.Split(s, sep)` for a one-character separator. -/
def stringsSplit (s : String) (sep : Char) : List String :=
  (splitChars sep s.data).map String.mk

/-- The part before and the part after the first occurrence of `sep`, if there is one. -/
def cutChars (sep : Char) : List Char → Option (List Char × List Char)
  | [] => none
  | c :: cs =>
    if c = sep then some ([], cs)
    else
      match cutChars sep cs with
      | none => none
      | some (before, after) => some (c :: before, after)

/-- The call `strings.Cut(s, sep)` for a one-character separator: `(before, after, found)`. -/
def stringsCut (s : String) (sep : Char) : String × String × Bool :=
  match cutChars sep s.data with
  | some (before, after) => (String.mk before, String.mk after, true)
  | none => (s, "", false)

/-- The predicate `unicode.IsSpace`: the characters with the Unicode White_Space property. -/
def unicodeIsSpace (c : Char) : Bool :=
  let n := c.toNat
  (9 ≤ n && n ≤ 13) || n == 32 || n == 133 || n == 160 || n == 5760 ||
    (8192 ≤ n && n ≤ 8202) || n == 8232 || n == 8233 || n == 8239 || n == 8287 || n == 12288

/-- The call `strings.TrimSpace(s)`: `s` without its leading and trailing white space. -/
def stringsTrimSpace (s : String) : String :=
  String.mk ((s.data.dropWhile unicodeIsSpace).reverse.dropWhile unicodeIsSpace).reverse

/-- The call `strings.HasPrefix(s, p)`. -/
def stringsBeginsWith (s p : String) : Bool := p.data.isPrefixOf s.data

/-- The call `strings.HasSuffix(s, p)`. -/
def stringsEndsWith (s p : String) : Bool := p.data.isSuffixOf s.data

/-- An `attribute.KeyValue` built by `attribute.String(k, v)`. -/
structure KeyValue where
  key : String
  value : String
  deriving DecidableEq, Repr

/-- The error `errors.Errorf("invalid tag %q, expected key=value", p)`. -/
def invalidTagError (rt : Runtime) (p : String) : GoError :=
  { text := "invalid tag " ++ rt.quote p ++ ", expected key=value" }

/-- The value of a tag after the environment-variable step of `parseJaegerTags` (the statement
`if strings.HasPrefix(v, ...) && strings.HasSuffix(v, ...)` with its body), applied to the
trimmed value. -/
def resolveTagValue (rt : Runtime) (v : String) : String :=
  if stringsBeginsWith v "$\x7b" && stringsEndsWith v "\x7d" then
    let (e, d, _) := stringsCut (String.mk (v.data.drop 2).dropLast) ':'
    let v1 := rt.getenv e
    if v1 = "" ∧ d ≠ "" then d else v1
  else v

/-- The loop of `parseJaegerTags` over the remaining `pairs`, with the tags collected so far. -/
def parseJaegerTagsLoop (rt : Runtime) : List String → List KeyValue → Except GoError (List KeyValue)
  | [], res => .ok res
  | p :: pairs, res =>
    let (k, v, found) := stringsCut p '='
    if found then
      let k := stringsTrimSpace k
      let v := resolveTagValue rt (stringsTrimSpace v)
      if v = "" then .error (invalidTagError rt p)
      else parseJaegerTagsLoop rt pairs (res ++ [{ key := k, value := v }])
    else if p ≠ "" then .error (invalidTagError rt p)
    else parseJaegerTagsLoop rt pairs res

/-- The function `parseJaegerTags(sTags)`: the tags, or the error (returned with a nil list). -/
def parseJaegerTags (rt : Runtime) (sTags : String) : Except GoError (List KeyValue) :=
  parseJaegerTagsLoop rt (stringsSplit sTags ',') []

/-- The call `strings.Join(segs, sep)` for a one-character separator. -/
def stringsJoin (segs : List String) (sep : Char) : String :=
  String.mk (List.intercalate [sep] (segs.map String.data))

/-- What one round of the loop of `parseJaegerTags` does with the segment `p`: it returns the
error, or appends a tag (`some`), or skips the segment (`none`). -/
def segmentTag (rt : Runtime) (p : String) : Except GoError (Option KeyValue) :=
  let (k, v, found) := stringsCut p '='
  if found then
    let k := stringsTrimSpace k
    let v := resolveTagValue rt (stringsTrimSpace v)
    if v = "" then .error (invalidTagError rt p)
    else .ok (some { key := k, value := v })
  else if p ≠ "" then .error (invalidTagError rt p)
  else .ok none

/-- The tag that one round of the loop of `parseJaegerTags` appends for the segment `p`, if
it appends one. -/
def tagOf (rt : Runtime) (p : String) : Option KeyValue :=
  match segmentTag rt p with
  | .ok r => r
  | .error _ => none

/-- The `config` struct. -/
structure config where
  agentHost : String
  collectorEndpoint : String
  agentPort : String
  samplerType : String
  samplingServerURL : String
  samplerParam : ℚ
  jaegerTags : List KeyValue
  agentHostPort : String
  deriving DecidableEq, Repr

/-- The zero value of `config`. -/
def config.zero : config :=
  { agentHost := "", collectorEndpoint := "", agentPort := "", samplerType := "",
    samplingServerURL := "", samplerParam := 0, jaegerTags := [], agentHostPort := "" }

/-- The call `net.JoinHostPort(host, port)`: the host is put in brackets when it contains a
colon. -/
def joinHostPort (host port : String) : String :=
  if host.data.contains ':' then "[" ++ host ++ "]:" ++ port else host ++ ":" ++ port

/-- The error `errors.Wrapf(err, format, ...)` or `errors.Wrap(err, msg)` with formatted
message `msg`: its text is `msg + ": " + err.Error()`. -/
def errorsWrap (err : GoError) (msg : String) : GoError :=
  { text := msg ++ ": " ++ err.Error }

/-- The first part of `parseTracingConfig`: the reporting agent configuration. -/
def parseReporter (rt : Runtime) (cfg : config) : config × Option GoError :=
  let e := rt.getenv envJaegerEndpoint
  if e ≠ "" then
    match rt.parseRequestURI e with
    | .error err =>
      (cfg, some (errorsWrap err ("cannot parse env var " ++ envJaegerEndpoint ++ "=" ++ e)))
    | .ok u => ({ cfg with collectorEndpoint := u }, none)
  else
    let host := if rt.getenv envJaegerAgentHost ≠ "" then rt.getenv envJaegerAgentHost
      else envJaegerDefaultUDPSpanServerHost
    let port := if rt.getenv envJaegerAgentPort ≠ "" then rt.getenv envJaegerAgentPort
      else envJaegerDefaultUDPSpanServerPort
    let useEnv : Bool := rt.getenv envJaegerAgentHost ≠ "" || rt.getenv envJaegerAgentPort ≠ ""
    if useEnv ∨ cfg.agentHostPort = "" then
      ({ cfg with agentHost := host, agentPort := port, agentHostPort := joinHostPort host port },
        none)
    else (cfg, none)

/-- The calls `errors.Wrapf(err, format, ...)` and `errors.Wrap(err, msg)` on an error that may
be nil: they return nil for a nil `err`. -/
def errorsWrapNilable (err : Option GoError) (msg : String) : Option GoError :=
  err.map fun e => errorsWrap e msg

/-- The function `parseTracingConfig()`: the pair `(config, error)` it returns. The variable
`outerErr` is the `var err error` of the function body, still nil where the sampler parameter
is read: the `err` of `if value, err := strconv.ParseFloat(e, 64); err == nil` is scoped to
that `if` statement, so the `errors.Wrapf(err, ...)` after it wraps the outer, nil `err`. -/
def parseTracingConfig (rt : Runtime) : config × Option GoError :=
  let outerErr : Option GoError := none
  match parseReporter rt config.zero with
  | (cfg, some err) => (cfg, some err)
  | (cfg, none) =>
    let cfg := if rt.getenv envJaegerSamplerType ≠ "" then
      { cfg with samplerType := rt.getenv envJaegerSamplerType } else cfg
    let e := rt.getenv envJaegerSamplerParam
    if e ≠ "" then
      match rt.parseFloat e with
      | .ok value =>
        let cfg := if cfg.samplerParam ≥ 0 ∧ cfg.samplerParam ≤ 1 then
          { cfg with samplerParam := value } else cfg
        (cfg, some { text :=
          "invalid Param for probabilistic sampler; expecting value between 0 and 1, received "
            ++ rt.formatFloat value })
      | .error _ =>
        (cfg, errorsWrapNilable outerErr
          ("cannot parse env var " ++ envJaegerSamplerParam ++ "=" ++ e))
    else
      let cfg :=
        if rt.getenv envJaegerSamplingEndpoint ≠ "" then
          { cfg with samplingServerURL := rt.getenv envJaegerSamplingEndpoint }
        else if rt.getenv envJaegerSamplerManagerHostPort ≠ "" then
          { cfg with samplingServerURL := rt.getenv envJaegerSamplerManagerHostPort }
        else if rt.getenv envJaegerAgentHost ≠ "" then
          { cfg with samplingServerURL := "http://" ++ rt.getenv envJaegerAgentHost ++ ":" ++
              toString envJaegerDefaultSamplingServerPort ++ "/sampling" }
        else cfg
      match parseJaegerTags rt (rt.getenv envJaegerTags) with
      | .error err => ({ cfg with jaegerTags := [] }, some (errorsWrap err ("could not parse " ++ envJaegerTags)))
      | .ok tags => ({ cfg with jaegerTags := tags }, none)

/-- The function `NewFromEnv(serviceName)`; `initJaegerTracerProvider` stands for the method of
that name, whose result (of type `κ`) is returned as it is. -/
def NewFromEnv {κ : Type} (rt : Runtime) (initJaegerTracerProvider : config → String → κ)
    (serviceName : String) : Except GoError κ :=
  match parseTracingConfig rt with
  | (_, some err) => .error (errorsWrap err "could not load jaeger tracer configuration")
  | (cfg, none) =>
    if cfg.samplingServerURL = "" ∧ cfg.agentHostPort = "" ∧ cfg.collectorEndpoint = "" then
      .error ErrBlankTraceConfiguration
    else .ok (initJaegerTracerProvider cfg serviceName)

/-- An environment given by a list of `(name, value)` pairs; other variables are unset. -/
def envOf (vars : List (String × String)) (name : String) : String :=
  match vars.find? fun kv => kv.1 = name with
  | some kv => kv.2
  | none => ""

/-- A runtime for worked examples: the environment holds the variables `vars`, every URI is
accepted as it is, no text parses as a number, and `%q` puts its operand between double
quotes. -/
def exampleRuntime (vars : List (String × String)) : Runtime :=
  { getenv := envOf vars, parseRequestURI := fun e => .ok e,
    parseFloat := fun _ => .error { text := "invalid syntax" },
    formatFloat := fun _ => "", quote := fun p => "\"" ++ p ++ "\"" }

end tracing

/-! ## `pkg/util/httpgrpcutil/middleware/grpc_instrumentation.go` -/

namespace middleware

/-- The constant `httpGRPCHandleMethod`. -/
def httpGRPCHandleMethod : String := "/httpgrpc.HTTP/Handle"

/-- A request value `req` of the empty interface type: either a `*httpgrpc.HTTPRequest`, of which the
code reads the URL and the method, or a value of another type. -/
inductive Request where
  /-- A `*httpgrpc.HTTPRequest` with its `GetUrl()` and `GetMethod()`. -/
  | httpRequest (url method : String)
  /-- A request of any other type. -/
  | other (payload : String)
  deriving DecidableEq, Repr

/-- A `context.Context`, reduced to the span `opentracing.SpanFromContext` finds in it
(`none` when the context carries no span). Spans are named by numbers. -/
structure Context where
  span : Option Nat
  deriving DecidableEq, Repr

/-- The `*grpc.UnaryServerInfo` argument. -/
structure UnaryServerInfo where
  FullMethod : String
  deriving DecidableEq, Repr

/-- What the interceptor does, in order. -/
inductive Event where
  /-- The call `span.SetTag(key, value)`. -/
  | setTag (span : Nat) (key value : String)
  /-- A span started by the tracer under `operationName`, as child of `parent`. -/
  | startSpan (span : Nat) (parent : Option Nat) (operationName : String)
  /-- The call `handler(ctx, req)`. -/
  | handler (ctx : Context) (req : Request)
  /-- The deferred call `span.Finish()`. -/
  | finish (span : Nat)
  deriving DecidableEq, Repr

/-- The outcome of one interceptor call: what it did, and the `(resp, err)` it returned, which
is `none` when the call panicked instead of returning. -/
structure Outcome (ρ : Type) where
  events : List Event
  result : Option ρ

/-- The number of `handler(ctx, req)` calls among the events. -/
def handlerCalls (events : List Event) : Nat :=
  events.countP fun ev =>
    match ev with
    | .handler _ _ => true
    | _ => false

/-- The interceptor returned by `OpenTracingHTTPGRPCUnaryServerInterceptor(tracer)`, applied to
`ctx`, `req`, `info` and `handler`. The tracer is given by the name `newSpan` it assigns to a
span started under an operation name and a parent; `ρ` is the type of the pair `(resp, err)`.
`opentracing.SpanFromContext(ctx)` is the nil `Span` when the context carries no span, and
calling `SetTag` on it panics. -/
def OpenTracingHTTPGRPCUnaryServerInterceptor {ρ : Type} (newSpan : String → Option Nat → Nat)
    (ctx : Context) (req : Request) (info : UnaryServerInfo) (handler : Context → Request → ρ) :
    Outcome ρ :=
  if info.FullMethod = httpGRPCHandleMethod then
    match req with
    | .httpRequest reqURL reqMethod =>
      match ctx.span with
      | none => { events := [], result := none }
      | some parent =>
        let span := newSpan (httpGRPCHandleMethod ++ reqURL) (some parent)
        let ctx1 : Context := { span := some span }
        { events :=
            [.setTag parent "http.url" reqURL, .setTag parent "http.method" reqMethod,
              .startSpan span (some parent) (httpGRPCHandleMethod ++ reqURL),
              .setTag span "http.url" reqURL, .setTag span "http.method" reqMethod,
              .handler ctx1 req, .finish span],
          result := some (handler ctx1 req) }
    | .other _ => { events := [.handler ctx req], result := some (handler ctx req) }
  else { events := [.handler ctx req], result := some (handler ctx req) }

end middleware

namespace storegateway

/-! ## Sequential behaviour of `Reserve` -/

theorem Reserve_of_limit_zero (l : Limiter) (num : Nat) (h : l.limit = 0) :
    l.Reserve num = (l, none) := by
  simp [Limiter.Reserve, h]

theorem failedOnceDo_limit (l : Limiter) : l.failedOnceDo.limit = l.limit := by
  unfold Limiter.failedOnceDo; split <;> rfl

theorem failedOnceDo_reserved (l : Limiter) : l.failedOnceDo.reserved = l.reserved := by
  unfold Limiter.failedOnceDo; split <;> rfl

theorem failedOnceDo_failedOnce (l : Limiter) : l.failedOnceDo.failedOnce = true := by
  unfold Limiter.failedOnceDo; split <;> simp_all

theorem failedOnceDo_failedCounter (l : Limiter) :
    l.failedOnceDo.failedCounter = l.failedCounter + (if l.failedOnce then 0 else 1) := by
  unfold Limiter.failedOnceDo; split <;> simp_all

theorem logReserve_limit (l : Limiter) (num : Nat) (s : String) :
    (l.logReserve num s).limit = l.limit := by
  unfold Limiter.logReserve; split <;> rfl

theorem logReserve_reserved (l : Limiter) (num : Nat) (s : String) :
    (l.logReserve num s).reserved = l.reserved := by
  unfold Limiter.logReserve; split <;> rfl

theorem logReserve_failedCounter (l : Limiter) (num : Nat) (s : String) :
    (l.logReserve num s).failedCounter = l.failedCounter := by
  unfold Limiter.logReserve; split <;> rfl

theorem logReserve_failedOnce (l : Limiter) (num : Nat) (s : String) :
    (l.logReserve num s).failedOnce = l.failedOnce := by
  unfold Limiter.logReserve; split <;> rfl

theorem Reserve_of_exceeded (l : Limiter) (num : Nat) (h : l.limit ≠ 0)
    (hex : l.limit < (l.reserved + num) % uint64Size) :
    l.Reserve num =
      (({ l with reserved := (l.reserved + num) % uint64Size }.failedOnceDo).logReserve num "FAILED",
        some (limitExceededErrorf StatusUnprocessableEntity l.limit)) := by
  simp [Limiter.Reserve, Limiter.reservedAdd, h, hex, logReserve_limit, failedOnceDo_limit]

theorem Reserve_of_within (l : Limiter) (num : Nat) (h : l.limit ≠ 0)
    (hin : ¬ l.limit < (l.reserved + num) % uint64Size) :
    l.Reserve num =
      (if num ≠ 0 then { l with reserved := (l.reserved + num) % uint64Size }.logReserve num "OK"
        else { l with reserved := (l.reserved + num) % uint64Size }, none) := by
  by_cases hn : num = 0 <;> simp_all [Limiter.Reserve, Limiter.reservedAdd]

theorem Reserve_limit (l : Limiter) (num : Nat) : (l.Reserve num).1.limit = l.limit := by
  by_cases h : l.limit = 0
  · rw [Reserve_of_limit_zero l num h]
  · by_cases hex : l.limit < (l.reserved + num) % uint64Size
    · rw [Reserve_of_exceeded l num h hex]; simp [logReserve_limit, failedOnceDo_limit]
    · rw [Reserve_of_within l num h hex]; split <;> simp [logReserve_limit]

theorem Reserve_reserved (l : Limiter) (num : Nat) (h : l.limit ≠ 0) :
    (l.Reserve num).1.reserved = (l.reserved + num) % uint64Size := by
  by_cases hex : l.limit < (l.reserved + num) % uint64Size
  · rw [Reserve_of_exceeded l num h hex]; simp [logReserve_reserved, failedOnceDo_reserved]
  · rw [Reserve_of_within l num h hex]; split <;> simp [logReserve_reserved]

theorem Reserve_isSome_iff (l : Limiter) (num : Nat) (h : l.limit ≠ 0) :
    (l.Reserve num).2.isSome = true ↔ l.limit < (l.reserved + num) % uint64Size := by
  by_cases hex : l.limit < (l.reserved + num) % uint64Size
  · rw [Reserve_of_exceeded l num h hex]; simp [hex]
  · rw [Reserve_of_within l num h hex]; simp [hex]

theorem Reserve_failedOnce (l : Limiter) (num : Nat) :
    (l.Reserve num).1.failedOnce = (l.failedOnce || (l.Reserve num).2.isSome) := by
  by_cases h : l.limit = 0
  · rw [Reserve_of_limit_zero l num h]; simp
  · by_cases hex : l.limit < (l.reserved + num) % uint64Size
    · rw [Reserve_of_exceeded l num h hex]; simp [logReserve_failedOnce, failedOnceDo_failedOnce]
    · rw [Reserve_of_within l num h hex]; split <;> simp [logReserve_failedOnce]

theorem Reserve_failedCounter (l : Limiter) (num : Nat) :
    (l.Reserve num).1.failedCounter =
      l.failedCounter + (if !l.failedOnce && (l.Reserve num).2.isSome then 1 else 0) := by
  by_cases h : l.limit = 0
  · rw [Reserve_of_limit_zero l num h]; simp
  · by_cases hex : l.limit < (l.reserved + num) % uint64Size
    · rw [Reserve_of_exceeded l num h hex]
      cases hf : l.failedOnce <;> simp [logReserve_failedCounter, failedOnceDo_failedCounter, hf]
    · rw [Reserve_of_within l num h hex]; split <;> simp [logReserve_failedCounter]

theorem reserveAll_nil (l : Limiter) : reserveAll l [] = (l, []) := rfl

theorem reserveAll_cons (l : Limiter) (num : Nat) (rest : List Nat) :
    reserveAll l (num :: rest) =
      ((reserveAll (l.Reserve num).1 rest).1, (l.Reserve num).2 :: (reserveAll (l.Reserve num).1 rest).2) :=
  rfl

theorem reserveAll_length (l : Limiter) (nums : List Nat) :
    (reserveAll l nums).2.length = nums.length := by
  induction nums generalizing l with
  | nil => rfl
  | cons n rest ih => simp [reserveAll_cons, ih]

theorem reserveAll_take (l : Limiter) (nums : List Nat) (k : Nat) :
    (reserveAll l (nums.take k)).2 = (reserveAll l nums).2.take k := by
  induction nums generalizing l k with
  | nil => simp [reserveAll_nil]
  | cons n rest ih =>
    cases k with
    | zero => simp [reserveAll_nil]
    | succ k => simp [reserveAll_cons, ih]

theorem reserveAll_isSome_iff (l : Limiter) (nums : List Nat) (k : Nat) (h : l.limit ≠ 0)
    (hk : k < nums.length) :
    ∃ e, (reserveAll l nums).2[k]? = some e ∧
      (e.isSome = true ↔ l.limit < (l.reserved + (nums.take (k + 1)).sum) % uint64Size) := by
  induction nums generalizing l k with
  | nil => simp at hk
  | cons n rest ih =>
    cases k with
    | zero =>
      refine ⟨(l.Reserve n).2, by simp [reserveAll_cons], ?_⟩
      simpa using Reserve_isSome_iff l n h
    | succ k =>
      have hl : (l.Reserve n).1.limit ≠ 0 := by rw [Reserve_limit]; exact h
      obtain ⟨e, he, hiff⟩ := ih (l.Reserve n).1 k hl (by simpa using hk)
      refine ⟨e, by simpa [reserveAll_cons] using he, ?_⟩
      rw [hiff, Reserve_limit, Reserve_reserved l n h]
      have : ((l.reserved + n) % uint64Size + (List.take (k + 1) rest).sum) % uint64Size
          = (l.reserved + (List.take (k + 1 + 1) (n :: rest)).sum) % uint64Size := by
        simp only [List.take_succ_cons, List.sum_cons, uint64Size]
        omega
      rw [this]

theorem onceCount_add (a b c : Bool) :
    ((if !a && b then 1 else 0) + (if !(a || b) && c then 1 else 0) : Nat) =
      if !a && (b || c) then 1 else 0 := by
  cases a <;> cases b <;> cases c <;> rfl

theorem reserveAll_failedOnce (l : Limiter) (nums : List Nat) :
    (reserveAll l nums).1.failedOnce = (l.failedOnce || (reserveAll l nums).2.any Option.isSome) := by
  induction nums generalizing l with
  | nil => simp [reserveAll_nil]
  | cons n rest ih =>
    rw [reserveAll_cons]
    simp only [List.any_cons, ih, Reserve_failedOnce, Bool.or_assoc]

theorem reserveAll_failedCounter (l : Limiter) (nums : List Nat) :
    (reserveAll l nums).1.failedCounter =
      l.failedCounter +
        (if !l.failedOnce && (reserveAll l nums).2.any Option.isSome then 1 else 0) := by
  induction nums generalizing l with
  | nil => simp [reserveAll_nil]
  | cons n rest ih =>
    rw [reserveAll_cons]
    simp only [List.any_cons, ih, Reserve_failedOnce, Reserve_failedCounter]
    rw [Nat.add_assoc, onceCount_add]

/-! ## Interleaved execution -/

theorem goroutine_step_limit (l : Limiter) (g : Goroutine) : (g.step l).1.limit = l.limit := by
  unfold Goroutine.step Limiter.reservedAdd
  split <;> (try split_ifs) <;> simp [failedOnceDo_limit]

theorem goroutine_step_num (l : Limiter) (g : Goroutine) : (g.step l).2.num = g.num := by
  unfold Goroutine.step Limiter.reservedAdd
  split <;> (try split_ifs) <;> simp

theorem goroutine_step_of_start (l : Limiter) (g : Goroutine) (h : l.limit ≠ 0)
    (hs : g.phase = .start) :
    (g.step l).1.reserved = (l.reserved + g.num) % uint64Size ∧
      g.contribution = 0 ∧ (g.step l).2.contribution = g.num := by
  simp [Goroutine.step, Goroutine.contribution, Limiter.reservedAdd, hs, h]

theorem goroutine_step_of_started (l : Limiter) (g : Goroutine) (hs : g.phase ≠ .start) :
    (g.step l).1.reserved = l.reserved ∧ (g.step l).2.contribution = g.contribution := by
  obtain ⟨num, phase⟩ := g
  cases phase with
  | start => exact absurd rfl hs
  | added r =>
    simp only [Goroutine.step, Goroutine.contribution]
    split_ifs <;> simp [failedOnceDo_reserved]
  | onceDone =>
    simp only [Goroutine.step, Goroutine.contribution]
    split_ifs <;> simp
  | loaded f v => simp [Goroutine.step, Goroutine.contribution]
  | finished e => simp [Goroutine.step, Goroutine.contribution]

theorem addedSum_set (gs : List Goroutine) (i : Nat) (g g1 : Goroutine)
    (hg : gs[i]? = some g) :
    addedSum (gs.set i g1) + g.contribution = addedSum gs + g1.contribution := by
  induction gs generalizing i with
  | nil => simp at hg
  | cons a rest ih =>
    cases i with
    | zero =>
      simp only [List.getElem?_cons_zero, Option.some.injEq] at hg
      subst hg
      simp only [addedSum, List.set_cons_zero, List.map_cons, List.sum_cons]
      omega
    | succ i =>
      simp only [List.getElem?_cons_succ] at hg
      have := ih i hg
      simp only [addedSum, List.set_cons_succ, List.map_cons, List.sum_cons] at this ⊢
      omega

theorem config_step_limit (c : Config) (i : Nat) : (c.step i).limiter.limit = c.limiter.limit := by
  unfold Config.step
  split
  · rfl
  · simp [goroutine_step_limit]

theorem config_step_nums (c : Config) (i : Nat) :
    (c.step i).goroutines.map Goroutine.num = c.goroutines.map Goroutine.num := by
  unfold Config.step
  split
  · rfl
  · next g hg =>
    simp only [List.map_set, goroutine_step_num]
    rw [List.get?_eq_getElem?] at hg
    apply List.ext_getElem?
    intro j
    by_cases hj : i = j
    · subst hj
      by_cases hi : i < c.goroutines.length
      · have hgi : c.goroutines[i] = g := by
          rw [List.getElem?_eq_getElem hi] at hg
          exact Option.some.inj hg
        simp [List.getElem?_set, hi, hgi]
      · have : c.goroutines[i]? = none := by simp at hi; simp [hi]
        simp [this] at hg
    · simp [List.getElem?_set, hj]

theorem config_step_reserved (c : Config) (i : Nat) (h : c.limiter.limit ≠ 0)
    (hinv : c.limiter.reserved = addedSum c.goroutines % uint64Size) :
    (c.step i).limiter.reserved = addedSum (c.step i).goroutines % uint64Size := by
  unfold Config.step
  split
  · exact hinv
  · next g hg =>
    rw [List.get?_eq_getElem?] at hg
    have hset := addedSum_set c.goroutines i g (g.step c.limiter).2 hg
    by_cases hs : g.phase = .start
    · obtain ⟨h1, h2, h3⟩ := goroutine_step_of_start c.limiter g h hs
      simp only [h1, hinv]
      rw [h2, h3] at hset
      simp only [uint64Size] at *
      omega
    · obtain ⟨h1, h2⟩ := goroutine_step_of_started c.limiter g hs
      simp only [h1, hinv]
      rw [h2] at hset
      simp only [uint64Size] at *
      omega

theorem config_run_invariant (c : Config) (sched : List Nat) (h : c.limiter.limit ≠ 0)
    (hinv : c.limiter.reserved = addedSum c.goroutines % uint64Size) :
    (c.run sched).limiter.reserved = addedSum (c.run sched).goroutines % uint64Size ∧
      (c.run sched).goroutines.map Goroutine.num = c.goroutines.map Goroutine.num := by
  induction sched generalizing c with
  | nil => exact ⟨hinv, rfl⟩
  | cons i rest ih =>
    have hl : (c.step i).limiter.limit ≠ 0 := by rw [config_step_limit]; exact h
    obtain ⟨h1, h2⟩ := ih (c.step i) hl (config_step_reserved c i h hinv)
    exact ⟨h1, h2.trans (config_step_nums c i)⟩

theorem addedSum_of_allFinished (gs : List Goroutine)
    (hfin : (gs.all fun g => g.phase.isFinished) = true) :
    addedSum gs = (gs.map Goroutine.num).sum := by
  induction gs with
  | nil => rfl
  | cons g rest ih =>
    simp only [List.all_cons, Bool.and_eq_true] at hfin
    have hg : g.contribution = g.num := by
      obtain ⟨num, phase⟩ := g
      cases phase <;> simp_all [Goroutine.contribution, Phase.isFinished]
    simp only [addedSum, List.map_cons, List.sum_cons, hg] at ih ⊢
    rw [ih hfin.2]

theorem addedSum_spawn (l : Limiter) (nums : List Nat) :
    addedSum (spawn l nums).goroutines = 0 := by
  simp only [spawn, addedSum, List.map_map]
  induction nums with
  | nil => rfl
  | cons n rest ih => simpa [Goroutine.contribution] using ih

theorem run_reserved_of_allFinished (l : Limiter) (nums : List Nat) (sched : List Nat)
    (h : l.limit ≠ 0) (h0 : l.reserved = 0)
    (hfin : ((spawn l nums).run sched).allFinished = true) :
    ((spawn l nums).run sched).limiter.reserved = nums.sum % uint64Size := by
  have hinit : (spawn l nums).limiter.reserved = addedSum (spawn l nums).goroutines % uint64Size := by
    rw [addedSum_spawn]
    simpa [spawn] using h0
  obtain ⟨h1, h2⟩ := config_run_invariant (spawn l nums) sched h hinit
  rw [h1, addedSum_of_allFinished _ hfin, h2]
  simp [spawn, List.map_map, Function.comp_def]

/-! ## Claims about the limiter -/

/-- C1, refuted as stated: with limit 1, the calls `Reserve(2^64 - 1)` and `Reserve(1)` have
running sum `2^64 > 1` at the second call, yet the second call returns nil, because the
`uint64` total wraps around to 0. -/
theorem Reserve_running_sum_counterexample :
    1 < ([18446744073709551615, 1].take 2).sum ∧
      (reserveAll (NewLimiter 1 0 none) [18446744073709551615, 1]).2[1]? = some none := by
  decide

/-- C1, amended: on a fresh limiter with limit `L > 0`, the `k`-th call of a sequence of
`Reserve` calls returns an error if and only if the running sum of the arguments up to and
including that call, reduced modulo `2^64`, is greater than `L`; otherwise it returns nil. When
that running sum is below `2^64` the reduction changes nothing and the plain sum decides. -/
theorem Reserve_fails_iff_wrapped_sum_exceeds (L ctr : Nat) (logger : Option (List LogRecord))
    (nums : List Nat) (k : Nat) (hL : 0 < L) (hk : k < nums.length) :
    ∃ e, (reserveAll (NewLimiter L ctr logger) nums).2[k]? = some e ∧
      (e.isSome = true ↔ L < (nums.take (k + 1)).sum % uint64Size) ∧
      ((nums.take (k + 1)).sum < uint64Size → (e.isSome = true ↔ L < (nums.take (k + 1)).sum)) := by
  obtain ⟨e, he, hiff⟩ :=
    reserveAll_isSome_iff (NewLimiter L ctr logger) nums k (Nat.pos_iff_ne_zero.mp hL) hk
  have hiff1 : e.isSome = true ↔ L < (nums.take (k + 1)).sum % uint64Size := by
    simpa [NewLimiter] using hiff
  refine ⟨e, he, hiff1, fun hlt => ?_⟩
  rw [hiff1, Nat.mod_eq_of_lt hlt]

/-- Instance of the amended C1 at limit 3 and the calls 1, 2, 1 (third call). -/
theorem Reserve_fails_iff_wrapped_sum_exceeds_witness :
    0 < 3 ∧ 2 < [1, 2, 1].length ∧
      ∃ e, (reserveAll (NewLimiter 3 0 none) [1, 2, 1]).2[2]? = some e ∧
        (e.isSome = true ↔ 3 < ([1, 2, 1].take (2 + 1)).sum % uint64Size) ∧
        (([1, 2, 1].take (2 + 1)).sum < uint64Size →
          (e.isSome = true ↔ 3 < ([1, 2, 1].take (2 + 1)).sum)) :=
  ⟨by decide, by decide,
    Reserve_fails_iff_wrapped_sum_exceeds 3 0 none [1, 2, 1] 2 (by decide) (by decide)⟩

theorem reserveAll_latched (l : Limiter) (nums : List Nat) (h : l.limit ≠ 0)
    (hex : l.limit < l.reserved) (hsum : l.reserved + nums.sum < uint64Size) :
    ∀ e ∈ (reserveAll l nums).2, e.isSome = true := by
  induction nums generalizing l with
  | nil => simp [reserveAll_nil]
  | cons n rest ih =>
    simp only [List.sum_cons] at hsum
    have hmod : (l.reserved + n) % uint64Size = l.reserved + n :=
      Nat.mod_eq_of_lt (by omega)
    have hfail : (l.Reserve n).2.isSome = true :=
      (Reserve_isSome_iff l n h).mpr (by rw [hmod]; omega)
    have hres : (l.Reserve n).1.reserved = l.reserved + n := by
      rw [Reserve_reserved l n h, hmod]
    intro e he
    rw [reserveAll_cons] at he
    rcases List.mem_cons.mp he with rfl | he
    · exact hfail
    · refine ih (l.Reserve n).1 ?_ ?_ ?_ e he
      · rw [Reserve_limit]; exact h
      · rw [Reserve_limit, hres]; omega
      · rw [hres]; omega

/-- C2, refuted as stated: with limit 1, `Reserve(2^64 - 1)` returns an error and the later call
`Reserve(1)` on the same instance returns nil, because the `uint64` total wraps around to 0. -/
theorem latch_wraparound_counterexample :
    (reserveAll (NewLimiter 1 0 none) [18446744073709551615, 1]).2 =
      [some (limitExceededErrorf StatusUnprocessableEntity 1), none] := by
  decide

/-- C2, amended (latch): if a `Reserve` call on a limiter returns an error, then every later
`Reserve` call on the same instance returns an error, whatever its argument (0 included), as
long as the `uint64` total does not wrap around: the value of `reserved` after the failing call
plus the later arguments stays below `2^64`. -/
theorem Reserve_latch (l : Limiter) (num : Nat) (later : List Nat)
    (hfail : (l.Reserve num).2.isSome = true)
    (hnowrap : (l.Reserve num).1.reserved + later.sum < uint64Size) :
    ∀ e ∈ (reserveAll (l.Reserve num).1 later).2, e.isSome = true := by
  have h : l.limit ≠ 0 := by
    intro h0
    rw [Reserve_of_limit_zero l num h0] at hfail
    simp at hfail
  refine reserveAll_latched _ later ?_ ?_ hnowrap
  · rw [Reserve_limit]; exact h
  · rw [Reserve_limit, Reserve_reserved l num h]
    exact (Reserve_isSome_iff l num h).mp hfail

/-- Instance of the amended C2: limit 3, failing call `Reserve(5)`, later calls 0, 2, 0. -/
theorem Reserve_latch_witness :
    ((NewLimiter 3 0 none).Reserve 5).2.isSome = true ∧
      ((NewLimiter 3 0 none).Reserve 5).1.reserved + [0, 2, 0].sum < uint64Size ∧
      ∀ e ∈ (reserveAll ((NewLimiter 3 0 none).Reserve 5).1 [0, 2, 0]).2, e.isSome = true :=
  ⟨by decide, by decide, Reserve_latch (NewLimiter 3 0 none) 5 [0, 2, 0] (by decide) (by decide)⟩

/-- C3: on a limiter created with limit 0, every `Reserve` call of every sequence of calls
returns nil, and the failure counter keeps the value it had at creation. -/
theorem Reserve_disabled (ctr : Nat) (logger : Option (List LogRecord)) (nums : List Nat) :
    (reserveAll (NewLimiter 0 ctr logger) nums).2 = List.replicate nums.length none ∧
      (reserveAll (NewLimiter 0 ctr logger) nums).1.failedCounter = ctr := by
  have key : ∀ l : Limiter, l.limit = 0 →
      reserveAll l nums = (l, List.replicate nums.length none) := by
    intro l hl
    induction nums with
    | nil => rfl
    | cons n rest ih =>
      rw [reserveAll_cons, Reserve_of_limit_zero l n hl, ih]
      rfl
  rw [key (NewLimiter 0 ctr logger) rfl]
  exact ⟨rfl, rfl⟩

/-- C4 (single-fire failure metric, sequential calls): for every sequence of `Reserve` calls on a
fresh limiter, the failure counter ends one above its initial value if at least one call failed
and unchanged if none failed; and after the first `k` calls it is one above its initial value
exactly when one of those `k` calls failed, so the single increment happens during the first
failing call. -/
theorem failedCounter_single_fire (L ctr : Nat) (logger : Option (List LogRecord))
    (nums : List Nat) :
    (reserveAll (NewLimiter L ctr logger) nums).1.failedCounter =
        ctr + (if (reserveAll (NewLimiter L ctr logger) nums).2.any Option.isSome then 1 else 0) ∧
      ∀ k, (reserveAll (NewLimiter L ctr logger) (nums.take k)).1.failedCounter =
        ctr + (if ((reserveAll (NewLimiter L ctr logger) nums).2.take k).any Option.isSome
          then 1 else 0) := by
  refine ⟨?_, fun k => ?_⟩
  · rw [reserveAll_failedCounter]; simp [NewLimiter]
  · rw [reserveAll_failedCounter, reserveAll_take]; simp [NewLimiter]

/-- C6, refuted as stated: on a limiter with limit 1 whose `reserved` is `2^64 - 1` (the state
after `Reserve(2^64 - 1)`), the call `Reserve(1)` leaves `reserved` at 0, below its value before
the call. -/
theorem reserved_wraparound_counterexample :
    ((NewLimiter 1 0 none).Reserve 18446744073709551615).1.reserved = 18446744073709551615 ∧
      (((NewLimiter 1 0 none).Reserve 18446744073709551615).1.Reserve 1).1.reserved = 0 := by
  decide

/-- C6, amended: for every limiter state and every `num` for which the addition does not wrap
around (`reserved + num < 2^64`), the value of `reserved` after `Reserve(num)` is greater than
or equal to its value before the call, on the success and on the failure path alike. -/
theorem reserved_monotone (l : Limiter) (num : Nat) (hnowrap : l.reserved + num < uint64Size) :
    l.reserved ≤ (l.Reserve num).1.reserved := by
  by_cases h : l.limit = 0
  · rw [Reserve_of_limit_zero l num h]
  · rw [Reserve_reserved l num h, Nat.mod_eq_of_lt hnowrap]
    omega

/-- Instance of the amended C6: fresh limiter with limit 3 and `Reserve(5)`. -/
theorem reserved_monotone_witness :
    (NewLimiter 3 0 none).reserved + 5 < uint64Size ∧
      (NewLimiter 3 0 none).reserved ≤ ((NewLimiter 3 0 none).Reserve 5).1.reserved :=
  ⟨by decide, reserved_monotone (NewLimiter 3 0 none) 5 (by decide)⟩

/-- C7: every error returned by `Reserve` carries status code 422 and the message text
`"limit " + decimal(limit) + " exceeded"`, whatever `num` and the reserved total are. -/
theorem Reserve_error_shape (l : Limiter) (num : Nat) (e : HTTPGRPCError)
    (herr : (l.Reserve num).2 = some e) :
    e.code = 422 ∧ e.body = "limit " ++ toString l.limit ++ " exceeded" := by
  by_cases h : l.limit = 0
  · rw [Reserve_of_limit_zero l num h] at herr
    simp at herr
  · by_cases hex : l.limit < (l.reserved + num) % uint64Size
    · rw [Reserve_of_exceeded l num h hex] at herr
      simp only [Option.some.injEq] at herr
      subst herr
      exact ⟨rfl, rfl⟩
    · rw [Reserve_of_within l num h hex] at herr
      simp at herr

/-- Instance of C7: with limit 1000 the error of `Reserve(1001)` reads `limit 1000 exceeded`. -/
theorem Reserve_error_shape_witness :
    ((NewLimiter 1000 0 none).Reserve 1001).2 = some ⟨422, "limit 1000 exceeded"⟩ ∧
      (⟨422, "limit 1000 exceeded"⟩ : HTTPGRPCError).code = 422 ∧
      (⟨422, "limit 1000 exceeded"⟩ : HTTPGRPCError).body =
        "limit " ++ toString (NewLimiter 1000 0 none).limit ++ " exceeded" :=
  ⟨by decide, Reserve_error_shape (NewLimiter 1000 0 none) 1001 ⟨422, "limit 1000 exceeded"⟩
    (by decide)⟩

/-- A goroutine that runs alone reaches the end of `Reserve` within four steps, with the limiter
and the returned error of the sequential definition. -/
theorem run_alone_eq_Reserve (l : Limiter) (num : Nat) :
    (spawn l [num]).run [0, 0, 0, 0] =
      { limiter := (l.Reserve num).1,
        goroutines := [{ num := num, phase := .finished (l.Reserve num).2 }] } := by
  obtain ⟨limit, reserved, ctr, once, logger⟩ := l
  by_cases h : limit = 0
  · subst h
    simp [spawn, Config.run, Config.step, Goroutine.step, Limiter.Reserve]
  · by_cases hex : limit < (reserved + num) % uint64Size
    · rw [Reserve_of_exceeded _ num h hex]
      cases logger <;> cases once <;>
        simp [spawn, Config.run, Config.step, Goroutine.step, Limiter.reservedAdd, h, hex,
          Limiter.failedOnceDo, Limiter.logReserve]
    · rw [Reserve_of_within _ num h hex]
      by_cases hn : num = 0
      · subst hn
        rw [Nat.add_zero] at hex
        cases logger <;>
          simp [spawn, Config.run, Config.step, Goroutine.step, Limiter.reservedAdd, h, hex]
      · cases logger <;>
          simp [spawn, Config.run, Config.step, Goroutine.step, Limiter.reservedAdd, h, hex, hn,
            Limiter.logReserve]

/-- C5, refuted as stated: with limit `L = 0 < N = 1`, the single call `Reserve(1)` returns before
the add, so the final value of `reserved` is 0 and not `N = 1`, in the sequential run and in the
interleaved one. -/
theorem disabled_limit_add_counterexample :
    (0 : Nat) < 1 ∧
      (reserveAll (NewLimiter 0 0 none) (List.replicate 1 1)).1.reserved = 0 ∧
      ((spawn (NewLimiter 0 0 none) (List.replicate 1 1)).run [0]).allFinished = true ∧
      ((spawn (NewLimiter 0 0 none) (List.replicate 1 1)).run [0]).limiter.reserved = 0 := by
  decide

/-- C5, amended (no lost updates): for every `N` and every limit `L` with `0 < L < N`, when `N`
goroutines each call `Reserve(1)` on a fresh limiter with that limit, then under every schedule
of their steps that lets all of them return, the final value of `reserved` is `N` modulo `2^64`
(so exactly `N` for `N < 2^64`), whether or not the calls failed. -/
theorem no_lost_updates (N L ctr : Nat) (logger : Option (List LogRecord)) (sched : List Nat)
    (hL : 0 < L) (_hLN : L < N)
    (hfin : ((spawn (NewLimiter L ctr logger) (List.replicate N 1)).run sched).allFinished = true) :
    ((spawn (NewLimiter L ctr logger) (List.replicate N 1)).run sched).limiter.reserved =
        N % uint64Size ∧
      (N < uint64Size →
        ((spawn (NewLimiter L ctr logger) (List.replicate N 1)).run sched).limiter.reserved = N) := by
  have h := run_reserved_of_allFinished (NewLimiter L ctr logger) (List.replicate N 1) sched
    (Nat.pos_iff_ne_zero.mp hL) rfl hfin
  have h1 : ((spawn (NewLimiter L ctr logger) (List.replicate N 1)).run sched).limiter.reserved =
      N % uint64Size := by
    simpa using h
  exact ⟨h1, fun hlt => by rw [h1, Nat.mod_eq_of_lt hlt]⟩

/-- Instance of the amended C5: two goroutines, limit 1, the calls interleaved; the goroutine
whose add comes second is the one that fails. -/
theorem no_lost_updates_witness :
    0 < 1 ∧ 1 < 2 ∧
      ((spawn (NewLimiter 1 0 none) (List.replicate 2 1)).run [1, 0, 1, 0, 0]).allFinished = true ∧
      ((spawn (NewLimiter 1 0 none) (List.replicate 2 1)).run [1, 0, 1, 0, 0]).limiter.reserved =
        2 % uint64Size ∧
      (2 < uint64Size →
        ((spawn (NewLimiter 1 0 none) (List.replicate 2 1)).run [1, 0, 1, 0, 0]).limiter.reserved = 2) :=
  ⟨by decide, by decide, by decide,
    no_lost_updates 2 1 0 none [1, 0, 1, 0, 0] (by decide) (by decide) (by decide)⟩

end storegateway

namespace ingester

/-! ## Claims about the errors of the ingester -/

/-- C8: for every `validationError` (underlying error `err`, status `code`, label set `labels`),
`Error()` is `err.Error()` unchanged when the label set is empty, and is
`err.Error() + " This is for series " + labels.String()` otherwise; the status code does not
influence the text. (With a nil `err` both `Error()` and `err.Error()` panic.) -/
theorem validationError_Error_text (labelsString : Labels → String) (err : Option GoError)
    (code : Int) (labels : Labels) :
    validationError.Error labelsString { err := err, code := code, labels := labels } =
        (if labels.pairs = [] then err.map GoError.Error
          else err.map fun c => c.Error ++ (" This is for series " ++ labelsString labels)) ∧
      ∀ code1 : Int,
        validationError.Error labelsString { err := err, code := code1, labels := labels } =
          validationError.Error labelsString { err := err, code := code, labels := labels } := by
  refine ⟨?_, fun _ => rfl⟩
  cases h : labels.pairs <;> simp [validationError.Error, Labels.IsEmpty, h, String.append_assoc]

/-- C9: for every non-nil error `err` and tenant IDs `userID`, `userID2`, the text of
`wrapWithUser(err, userID)` is `"user=" + userID + ": " + err.Error()`, and wrapping the same
`err` for `userID2` gives the text with the second prefix; both are functions of the tenant ID
and of `err.Error()` alone. -/
theorem wrapWithUser_Error (err : GoError) (userID userID2 : String) :
    (wrapWithUser (some err) userID).Error = "user=" ++ userID ++ ": " ++ err.Error ∧
      (wrapWithUser (some err) userID2).Error = "user=" ++ userID2 ++ ": " ++ err.Error :=
  ⟨rfl, rfl⟩

/-- C10: `makeLimitError` hands to the sampler the `validationError` with status code 400, an
empty label set and `err = limiter.FormatError(userID, cause)`, whose `Error()` is the
text of the formatter with no series suffix; `makeMetricLimitError` hands over the same value except
that `labels` is the given label set. The code 400 is the same for every cause. -/
theorem makeLimitError_value {ε : Type} (limiter : Limiter ε) (userID : String)
    (cause : Option GoError) (labels : Labels) (labelsString : Labels → String) :
    makeLimitError limiter userID cause =
        limiter.samplerWrapError
          { err := limiter.FormatError userID cause, code := 400, labels := { pairs := [] } } ∧
      validationError.Error labelsString
          { err := limiter.FormatError userID cause, code := 400, labels := { pairs := [] } } =
        (limiter.FormatError userID cause).map GoError.Error ∧
      makeMetricLimitError limiter userID labels cause =
        limiter.samplerWrapError
          { err := limiter.FormatError userID cause, code := 400, labels := labels } :=
  ⟨rfl, rfl, rfl⟩

/-- C11: the canonical overload error `tooBusyError` has status code 503 and the message
`the ingester is currently too busy to process queries, try again later`; it is a constant, so
every access yields this content. -/
theorem tooBusyError_content :
    tooBusyError.code = 503 ∧
      tooBusyError.body =
        "the ingester is currently too busy to process queries, try again later" :=
  ⟨rfl, rfl⟩

end ingester

namespace storegateway

/-- C12, at the failing input: on a limiter built with a nil logger, `Log(keyvals...)` panics for
every `keyvals`, because `level.Warn(l.logger).Log(keyvals)` is called without the nil check that
`Reserve` makes; `Reserve` on the same limiter returns and logs nothing. -/
theorem Log_nil_logger_panics (limit ctr num : Nat) (keyvals : List String) :
    (NewLimiter limit ctr none).Log keyvals = none ∧
      ((NewLimiter limit ctr none).Reserve num).1.logger = none := by
  refine ⟨rfl, ?_⟩
  by_cases h : limit = 0
  · rw [Reserve_of_limit_zero _ num (by simpa [NewLimiter] using h)]
    rfl
  · have hl : (NewLimiter limit ctr none).limit ≠ 0 := by simpa [NewLimiter] using h
    by_cases hex : (NewLimiter limit ctr none).limit <
        ((NewLimiter limit ctr none).reserved + num) % uint64Size
    · rw [Reserve_of_exceeded _ num hl hex]
      simp [NewLimiter, Limiter.logReserve, Limiter.failedOnceDo]
    · rw [Reserve_of_within _ num hl hex]
      split <;> simp [NewLimiter, Limiter.logReserve]

/-- C13: every invocation of a factory made by `NewChunksLimiterFactory` or
`NewSeriesLimiterFactory` calls `limitsExtractor` once, at that moment, and returns a fresh
limiter (`reserved = 0`, once-gate not fired) whose limit is the value just returned, with the
given failure counter and logger; a second invocation calls the extractor again and takes the
new value (no caching); and the two factories return the same limiter for the same inputs. -/
theorem limiter_factory_fresh {σ : Type} (limitsExtractor : σ → Nat × σ)
    (logger : Option (List LogRecord)) (ctr1 ctr2 : Nat) (s : σ) :
    NewChunksLimiterFactory limitsExtractor logger ctr1 s =
        ({ limit := (limitsExtractor s).1, reserved := 0, failedCounter := ctr1,
           failedOnce := false, logger := logger }, (limitsExtractor s).2) ∧
      NewChunksLimiterFactory limitsExtractor logger ctr2 (limitsExtractor s).2 =
        ({ limit := (limitsExtractor (limitsExtractor s).2).1, reserved := 0,
           failedCounter := ctr2, failedOnce := false, logger := logger },
          (limitsExtractor (limitsExtractor s).2).2) ∧
      NewSeriesLimiterFactory limitsExtractor logger ctr1 s =
        NewChunksLimiterFactory limitsExtractor logger ctr1 s :=
  ⟨rfl, rfl, rfl⟩

/-- C17, at the failing input: on a limiter with limit 10 and a non-nil logger, `Reserve(5)`
emits a record whose msg is `Adding ` + U+0005 + ` elements to the limiter` and not
`Adding 5 elements to the limiter`, because `string(num)` converts the number to the character
with that code point; and the calls `Reserve(55296)` and `Reserve(1114112)`, whose arguments
are not valid code points, emit the same msg text. -/
theorem Reserve_msg_is_rune_conversion :
    ((NewLimiter 10 0 (some [])).Reserve 5).1.logger =
        some [{ level := "warn", source := "limiter.go", func := "Reserve",
                msg := "Adding \x05 elements to the limiter",
                reserved := 5, limit := 10, status := "OK" }] ∧
      (((NewLimiter 10 0 (some [])).Reserve 55296).1.logger.map fun recs =>
          recs.map LogRecord.msg) =
        (((NewLimiter 10 0 (some [])).Reserve 1114112).1.logger.map fun recs =>
          recs.map LogRecord.msg) := by
  decide

end storegateway

namespace tracing

/-- C14, at the failing input: with no environment variable set (and whatever the library
functions do), `parseTracingConfig` fills in the default agent `localhost:6831`, so `NewFromEnv`
does not return `ErrBlankTraceConfiguration` but goes on to `initJaegerTracerProvider` with that
configuration. -/
theorem NewFromEnv_empty_env_not_blank {κ : Type} (parseRequestURI : String → Except GoError String)
    (parseFloat : String → Except GoError ℚ) (formatFloat : ℚ → String) (quote : String → String)
    (initJaegerTracerProvider : config → String → κ) (serviceName : String) :
    NewFromEnv
        { getenv := envOf [], parseRequestURI := parseRequestURI, parseFloat := parseFloat,
          formatFloat := formatFloat, quote := quote }
        initJaegerTracerProvider serviceName =
      .ok (initJaegerTracerProvider
        { agentHost := "localhost", collectorEndpoint := "", agentPort := "6831",
          samplerType := "", samplingServerURL := "", samplerParam := 0, jaegerTags := [],
          agentHostPort := "localhost:6831" } serviceName) := by
  rfl

/-- C18, at the failing input: with `JAEGER_SAMPLER_PARAM=0.5` (parsed as the number 1/2, which
lies between 0 and 1) and nothing else set, `parseTracingConfig` stores the value and returns
the error `invalid Param for probabilistic sampler; expecting value between 0 and 1, received`
followed by the value. -/
theorem parseTracingConfig_rejects_valid_param (parseRequestURI : String → Except GoError String)
    (formatFloat : ℚ → String) (quote : String → String) :
    parseTracingConfig
        { getenv := envOf [("JAEGER_SAMPLER_PARAM", "0.5")], parseRequestURI := parseRequestURI,
          parseFloat := fun _ => .ok (1 / 2), formatFloat := formatFloat, quote := quote } =
      ({ agentHost := "localhost", collectorEndpoint := "", agentPort := "6831",
         samplerType := "", samplingServerURL := "", samplerParam := 1 / 2, jaegerTags := [],
         agentHostPort := "localhost:6831" },
        some { text :=
          "invalid Param for probabilistic sampler; expecting value between 0 and 1, received "
            ++ formatFloat (1 / 2) }) := by
  rfl

end tracing

namespace middleware

/-- C20, at the failing input: for a `/httpgrpc.HTTP/Handle` call with an `HTTPRequest` whose
context carries no span, the interceptor panics on `span.SetTag` of the nil span: it returns
nothing and the handler is not invoked. -/
theorem interceptor_root_request_panics {ρ : Type} (newSpan : String → Option Nat → Nat)
    (reqURL reqMethod : String) (handler : Context → Request → ρ) :
    (OpenTracingHTTPGRPCUnaryServerInterceptor newSpan { span := none }
        (.httpRequest reqURL reqMethod) { FullMethod := "/httpgrpc.HTTP/Handle" } handler).result
        = none ∧
      handlerCalls (OpenTracingHTTPGRPCUnaryServerInterceptor newSpan { span := none }
        (.httpRequest reqURL reqMethod) { FullMethod := "/httpgrpc.HTTP/Handle" } handler).events
        = 0 := by
  simp [OpenTracingHTTPGRPCUnaryServerInterceptor, httpGRPCHandleMethod, handlerCalls]

/-- Outside the failing case (another method, another request type, or a context that carries a
span) the interceptor invokes the handler once, with the request unchanged, and returns what the
handler returned. -/
theorem interceptor_passes_through {ρ : Type} (newSpan : String → Option Nat → Nat)
    (ctx : Context) (req : Request) (info : UnaryServerInfo) (handler : Context → Request → ρ)
    (h : info.FullMethod ≠ httpGRPCHandleMethod ∨ (∃ payload, req = .other payload) ∨
      ctx.span.isSome = true) :
    ∃ ctx1, (OpenTracingHTTPGRPCUnaryServerInterceptor newSpan ctx req info handler).result =
        some (handler ctx1 req) ∧
      handlerCalls (OpenTracingHTTPGRPCUnaryServerInterceptor newSpan ctx req info handler).events
        = 1 := by
  unfold OpenTracingHTTPGRPCUnaryServerInterceptor
  by_cases hm : info.FullMethod = httpGRPCHandleMethod
  · cases req with
    | other payload => exact ⟨ctx, by simp [hm, handlerCalls]⟩
    | httpRequest url method =>
      cases hs : ctx.span with
      | none => simp [hm, hs] at h
      | some parent =>
        exact ⟨{ span := some (newSpan (httpGRPCHandleMethod ++ url) (some parent)) },
          by simp [hm, handlerCalls]⟩
  · exact ⟨ctx, by simp [hm, handlerCalls]⟩

end middleware

namespace storegateway

/-! ## The once-gate as one atomic step, under interleaving -/

theorem goroutine_step_observed (l : Limiter) (g : Goroutine) :
    (g.step l).1.failedOnce =
        (l.failedOnce || ((g.step l).2.phase.observedFailure && !g.phase.observedFailure)) ∧
      (g.phase.observedFailure = true → (g.step l).2.phase.observedFailure = true) := by
  obtain ⟨num, phase⟩ := g
  cases phase with
  | start =>
    by_cases h : l.limit = 0 <;>
      simp [Goroutine.step, Limiter.reservedAdd, Phase.observedFailure, h]
  | added r =>
    simp only [Goroutine.step]
    split_ifs <;> simp [Phase.observedFailure, failedOnceDo_failedOnce]
  | onceDone =>
    simp only [Goroutine.step]
    split_ifs <;> simp [Phase.observedFailure]
  | loaded f v => cases f <;> simp [Goroutine.step, Phase.observedFailure]
  | finished e => cases e <;> simp [Goroutine.step, Phase.observedFailure]

theorem goroutine_step_failedCounter (l : Limiter) (g : Goroutine) :
    (g.step l).1.failedCounter =
      l.failedCounter + (if !l.failedOnce && (g.step l).1.failedOnce then 1 else 0) := by
  obtain ⟨num, phase⟩ := g
  cases phase with
  | start =>
    by_cases h : l.limit = 0 <;> simp [Goroutine.step, Limiter.reservedAdd, h]
  | added r =>
    by_cases hr : r > l.limit
    · have hl : (Goroutine.step l { num := num, phase := .added r }).1 = l.failedOnceDo := by
        simp [Goroutine.step, hr]
      rw [hl]
      cases hf : l.failedOnce <;> simp [failedOnceDo_failedOnce, failedOnceDo_failedCounter, hf]
    · have hl : (Goroutine.step l { num := num, phase := .added r }).1 = l := by
        simp only [Goroutine.step, hr, if_false]
        split_ifs <;> rfl
      rw [hl]
      cases l.failedOnce <;> simp
  | onceDone =>
    have hl : (Goroutine.step l { num := num, phase := .onceDone }).1 = l := by
      simp only [Goroutine.step]
      split_ifs <;> rfl
    rw [hl]
    cases l.failedOnce <;> simp
  | loaded f v => cases hf : l.failedOnce <;> simp [Goroutine.step, hf]
  | finished e => cases hf : l.failedOnce <;> simp [Goroutine.step, hf]

theorem any_set_of_monotone (f : Goroutine → Bool) (gs : List Goroutine) (i : Nat)
    (g g1 : Goroutine) (hg : gs[i]? = some g) (hmono : f g = true → f g1 = true) :
    (gs.set i g1).any f = (gs.any f || f g1) := by
  induction gs generalizing i with
  | nil => simp at hg
  | cons a rest ih =>
    cases i with
    | zero =>
      simp only [List.getElem?_cons_zero, Option.some.injEq] at hg
      subst hg
      simp only [List.set_cons_zero, List.any_cons]
      cases ha : f a <;> cases h1 : f g1 <;> cases hr : rest.any f <;> simp_all
    | succ i =>
      simp only [List.getElem?_cons_succ] at hg
      simp only [List.set_cons_succ, List.any_cons, ih i hg, Bool.or_assoc]

theorem config_step_once (c : Config) (i ctr : Nat)
    (h1 : c.limiter.failedOnce = c.goroutines.any fun g => g.phase.observedFailure)
    (h2 : c.limiter.failedCounter = ctr + (if c.limiter.failedOnce then 1 else 0)) :
    (c.step i).limiter.failedOnce = ((c.step i).goroutines.any fun g => g.phase.observedFailure) ∧
      (c.step i).limiter.failedCounter =
        ctr + (if (c.step i).limiter.failedOnce then 1 else 0) := by
  unfold Config.step
  split
  · exact ⟨h1, h2⟩
  · next g hg =>
    rw [List.get?_eq_getElem?] at hg
    obtain ⟨ho, hmono⟩ := goroutine_step_observed c.limiter g
    have hc := goroutine_step_failedCounter c.limiter g
    have hany := any_set_of_monotone (fun g => g.phase.observedFailure) c.goroutines i g
      (g.step c.limiter).2 hg hmono
    have hgobs : g.phase.observedFailure = true → c.limiter.failedOnce = true := by
      intro hgo
      rw [h1]
      exact List.any_eq_true.mpr ⟨g, List.getElem?_mem hg, hgo⟩
    have hfo : (g.step c.limiter).1.failedOnce =
        (c.limiter.failedOnce || (g.step c.limiter).2.phase.observedFailure) := by
      rw [ho]
      cases hA : c.limiter.failedOnce <;> cases hB : (g.step c.limiter).2.phase.observedFailure <;>
        cases hC : g.phase.observedFailure <;> simp_all
    refine ⟨?_, ?_⟩
    · simp only [hany, hfo, h1]
    · simp only [hc, h2]
      cases hA : c.limiter.failedOnce <;> cases hB : (g.step c.limiter).1.failedOnce <;>
        simp_all

theorem config_run_once (c : Config) (sched : List Nat) (ctr : Nat)
    (h1 : c.limiter.failedOnce = c.goroutines.any fun g => g.phase.observedFailure)
    (h2 : c.limiter.failedCounter = ctr + (if c.limiter.failedOnce then 1 else 0)) :
    (c.run sched).limiter.failedCounter =
      ctr + (if ((c.run sched).goroutines.any fun g => g.phase.observedFailure) then 1 else 0) := by
  induction sched generalizing c with
  | nil =>
    simp only [Config.run, List.foldl_nil]
    rw [h2, h1]
  | cons i rest ih =>
    obtain ⟨k1, k2⟩ := config_step_once c i ctr h1 h2
    exact ih (c.step i) k1 k2

end storegateway

namespace tracing

/-! ## `parseJaegerTags` -/

theorem cutChars_eq_none_iff (sep : Char) (l : List Char) :
    cutChars sep l = none ↔ sep ∉ l := by
  induction l with
  | nil => simp [cutChars]
  | cons c cs ih =>
    by_cases h : c = sep
    · simp [cutChars, h]
    · cases hc : cutChars sep cs with
      | none =>
        have := ih.mp hc
        simp [cutChars, h, hc, this, Ne.symm h]
      | some ba =>
        have hmem : sep ∈ cs := by
          by_contra hn
          rw [ih.mpr hn] at hc
          cases hc
        simp [cutChars, h, hc, hmem]

theorem cutChars_append (sep : Char) (b a : List Char) (h : sep ∉ b) :
    cutChars sep (b ++ sep :: a) = some (b, a) := by
  induction b with
  | nil => simp [cutChars]
  | cons c cs ih =>
    have hc : c ≠ sep := fun hc => h (by simp [hc])
    have hcs : sep ∉ cs := fun hm => h (by simp [hm])
    simp [cutChars, hc, ih hcs]

theorem cutChars_eq_some (sep : Char) (l b a : List Char) (h : cutChars sep l = some (b, a)) :
    l = b ++ sep :: a ∧ sep ∉ b := by
  induction l generalizing b with
  | nil => simp [cutChars] at h
  | cons c cs ih =>
    by_cases hc : c = sep
    · simp only [cutChars, hc, if_true, Option.some.injEq, Prod.mk.injEq] at h
      obtain ⟨rfl, rfl⟩ := h
      simp [hc]
    · cases hcs : cutChars sep cs with
      | none => simp [cutChars, hc, hcs] at h
      | some ba =>
        obtain ⟨b1, a1⟩ := ba
        simp only [cutChars, hc, if_false, hcs, Option.some.injEq, Prod.mk.injEq] at h
        obtain ⟨rfl, rfl⟩ := h
        obtain ⟨h1, h2⟩ := ih b1 hcs
        refine ⟨by simp [h1], ?_⟩
        simp only [List.mem_cons, not_or]
        exact ⟨Ne.symm hc, h2⟩

theorem stringsCut_of_append (k v : String) (h : '=' ∉ k.data) :
    stringsCut (k ++ "=" ++ v) '=' = (k, v, true) := by
  have hd : (k ++ "=" ++ v).data = k.data ++ '=' :: v.data := by
    simp [String.data_append]
  simp [stringsCut, hd, cutChars_append '=' k.data v.data h]

theorem stringsCut_of_not_mem (p : String) (h : '=' ∉ p.data) :
    stringsCut p '=' = (p, "", false) := by
  simp [stringsCut, (cutChars_eq_none_iff '=' p.data).mpr h]

theorem exists_key_value_of_mem (p : String) (h : '=' ∈ p.data) :
    ∃ k v : String, p = k ++ "=" ++ v ∧ '=' ∉ k.data := by
  cases hc : cutChars '=' p.data with
  | none => exact absurd h ((cutChars_eq_none_iff '=' p.data).mp hc)
  | some ba =>
    obtain ⟨b, a⟩ := ba
    obtain ⟨h1, h2⟩ := cutChars_eq_some '=' p.data b a hc
    refine ⟨String.mk b, String.mk a, ?_, h2⟩
    apply String.ext
    simp [String.data_append, h1]

theorem mem_data_of_key_value (k v : String) : '=' ∈ (k ++ "=" ++ v).data := by
  simp [String.data_append]

theorem parseJaegerTagsLoop_cons (rt : Runtime) (p : String) (pairs : List String)
    (res : List KeyValue) :
    parseJaegerTagsLoop rt (p :: pairs) res =
      match segmentTag rt p with
      | .error e => .error e
      | .ok none => parseJaegerTagsLoop rt pairs res
      | .ok (some kv) => parseJaegerTagsLoop rt pairs (res ++ [kv]) := by
  rw [parseJaegerTagsLoop]
  simp only [segmentTag]
  rcases hcut : stringsCut p '=' with ⟨k, v, found⟩
  cases found
  · by_cases hp : p = "" <;> simp [hp]
  · by_cases hv : resolveTagValue rt (stringsTrimSpace v) = "" <;> simp [hv]

theorem parseJaegerTagsLoop_ok (rt : Runtime) (pairs : List String) (res : List KeyValue)
    (h : ∀ p ∈ pairs, ∃ r, segmentTag rt p = .ok r) :
    parseJaegerTagsLoop rt pairs res = .ok (res ++ pairs.filterMap (tagOf rt)) := by
  induction pairs generalizing res with
  | nil => simp [parseJaegerTagsLoop]
  | cons p pairs ih =>
    obtain ⟨r, hr⟩ := h p (List.mem_cons_self _ _)
    have ih1 := fun res => ih res (fun q hq => h q (List.mem_cons_of_mem _ hq))
    rw [parseJaegerTagsLoop_cons, hr]
    cases r with
    | none => simp [ih1, List.filterMap_cons, tagOf, hr]
    | some kv => simp [ih1, List.filterMap_cons, tagOf, hr]

theorem parseJaegerTagsLoop_error (rt : Runtime) (pairs : List String) (res : List KeyValue)
    (h : ∃ p ∈ pairs, ∃ e, segmentTag rt p = .error e) :
    ∃ e, parseJaegerTagsLoop rt pairs res = .error e := by
  induction pairs generalizing res with
  | nil => simp at h
  | cons p pairs ih =>
    rw [parseJaegerTagsLoop_cons]
    cases hp : segmentTag rt p with
    | error e => exact ⟨e, rfl⟩
    | ok r =>
      have hrest : ∃ q ∈ pairs, ∃ e, segmentTag rt q = .error e := by
        obtain ⟨q, hq, e, he⟩ := h
        rcases List.mem_cons.mp hq with rfl | hq
        · rw [hp] at he; cases he
        · exact ⟨q, hq, e, he⟩
      cases r with
      | none => exact ih res hrest
      | some kv => exact ih (res ++ [kv]) hrest

theorem segmentTag_of_key_value (rt : Runtime) (k v : String) (hk : '=' ∉ k.data) :
    segmentTag rt (k ++ "=" ++ v) =
      if resolveTagValue rt (stringsTrimSpace v) = "" then
        .error (invalidTagError rt (k ++ "=" ++ v))
      else .ok (some { key := stringsTrimSpace k,
                       value := resolveTagValue rt (stringsTrimSpace v) }) := by
  simp [segmentTag, stringsCut_of_append k v hk]

theorem segmentTag_of_not_mem (rt : Runtime) (p : String) (h : '=' ∉ p.data) :
    segmentTag rt p = if p ≠ "" then .error (invalidTagError rt p) else .ok none := by
  simp [segmentTag, stringsCut_of_not_mem p h]

/-- A segment makes `parseJaegerTags` fail exactly when it is non-empty without `=`, or has a
`=` and an empty resolved value. -/
theorem segmentTag_error_iff (rt : Runtime) (p : String) :
    (∃ e, segmentTag rt p = .error e) ↔
      ((p ≠ "" ∧ '=' ∉ p.data) ∨
        ∃ k v : String, p = k ++ "=" ++ v ∧ '=' ∉ k.data ∧
          resolveTagValue rt (stringsTrimSpace v) = "") := by
  by_cases hmem : '=' ∈ p.data
  · obtain ⟨k, v, rfl, hk⟩ := exists_key_value_of_mem p hmem
    rw [segmentTag_of_key_value rt k v hk]
    constructor
    · intro ⟨e, he⟩
      right
      refine ⟨k, v, rfl, hk, ?_⟩
      by_contra hne
      simp [hne] at he
    · rintro (⟨_, hno⟩ | ⟨k1, v1, heq, hk1, hres⟩)
      · exact absurd hmem hno
      · have h1 := stringsCut_of_append k v hk
        rw [heq, stringsCut_of_append k1 v1 hk1] at h1
        simp only [Prod.mk.injEq, and_true] at h1
        obtain ⟨rfl, rfl⟩ := h1
        exact ⟨invalidTagError rt (k1 ++ "=" ++ v1), by simp [hres]⟩
  · rw [segmentTag_of_not_mem rt p hmem]
    constructor
    · intro ⟨e, he⟩
      left
      refine ⟨?_, hmem⟩
      intro hp
      simp [hp] at he
    · rintro (⟨hp, _⟩ | ⟨k1, v1, heq, _, _⟩)
      · exact ⟨invalidTagError rt p, by simp [hp]⟩
      · exact absurd (heq ▸ mem_data_of_key_value k1 v1) hmem

theorem tagOf_isSome_of_ok (rt : Runtime) (p : String) (r : Option KeyValue)
    (h : segmentTag rt p = .ok r) : (tagOf rt p).isSome = p.data.contains '=' := by
  by_cases hmem : '=' ∈ p.data
  · obtain ⟨k, v, rfl, hk⟩ := exists_key_value_of_mem p hmem
    rw [segmentTag_of_key_value rt k v hk] at h
    by_cases hres : resolveTagValue rt (stringsTrimSpace v) = ""
    · simp [hres] at h
    · simp [tagOf, segmentTag_of_key_value rt k v hk, hres, String.data_append]
  · rw [segmentTag_of_not_mem rt p hmem] at h
    by_cases hp : p = ""
    · subst hp
      simp [tagOf, segmentTag_of_not_mem rt "" hmem]
    · simp [hp] at h

theorem splitChars_ne_nil (sep : Char) (l : List Char) : splitChars sep l ≠ [] := by
  induction l with
  | nil => simp [splitChars]
  | cons c cs ih =>
    by_cases h : c = sep
    · simp [splitChars, h]
    · cases hs : splitChars sep cs with
      | nil => exact absurd hs ih
      | cons piece pieces => simp [splitChars, h, hs]

theorem splitChars_of_not_mem (sep : Char) (l : List Char) (h : sep ∉ l) :
    splitChars sep l = [l] := by
  induction l with
  | nil => rfl
  | cons c cs ih =>
    have hc : c ≠ sep := fun hc => h (by simp [hc])
    have hcs : sep ∉ cs := fun hm => h (by simp [hm])
    simp [splitChars, hc, ih hcs]

theorem splitChars_append (sep : Char) (p rest : List Char) (h : sep ∉ p) :
    splitChars sep (p ++ sep :: rest) = p :: splitChars sep rest := by
  induction p with
  | nil => simp [splitChars]
  | cons c cs ih =>
    have hc : c ≠ sep := fun hc => h (by simp [hc])
    have hcs : sep ∉ cs := fun hm => h (by simp [hm])
    simp [splitChars, hc, ih hcs]

theorem splitChars_intercalate (sep : Char) (segs : List (List Char)) (hne : segs ≠ [])
    (h : ∀ p ∈ segs, sep ∉ p) : splitChars sep (List.intercalate [sep] segs) = segs := by
  induction segs with
  | nil => exact absurd rfl hne
  | cons p rest ih =>
    cases rest with
    | nil =>
      simpa [List.intercalate, List.intersperse] using
        splitChars_of_not_mem sep p (h p (List.mem_cons_self _ _))
    | cons q qs =>
      have hrest := ih (by simp) (fun r hr => h r (List.mem_cons_of_mem _ hr))
      have hcat : List.intercalate [sep] (p :: q :: qs) =
          p ++ sep :: List.intercalate [sep] (q :: qs) := by
        simp [List.intercalate, List.intersperse]
      rw [hcat, splitChars_append sep p _ (h p (List.mem_cons_self _ _)), hrest]

/-- Splitting what `strings.Join` built from non-empty list of comma-free segments gives the
segments back. -/
theorem stringsSplit_join (segs : List String) (sep : Char) (hne : segs ≠ [])
    (h : ∀ p ∈ segs, sep ∉ p.data) : stringsSplit (stringsJoin segs sep) sep = segs := by
  unfold stringsSplit stringsJoin
  simp only
  rw [splitChars_intercalate sep (segs.map String.data) (by simpa using hne)
    (by simpa using h)]
  simp [List.map_map, Function.comp_def]

/-- The segments of `strings.Split` contain no separator, and joining them gives the input. -/
theorem stringsJoin_split (s : String) (sep : Char) :
    stringsJoin (stringsSplit s sep) sep = s ∧ ∀ p ∈ stringsSplit s sep, sep ∉ p.data := by
  have key : ∀ l : List Char, List.intercalate [sep] (splitChars sep l) = l ∧
      ∀ p ∈ splitChars sep l, sep ∉ p := by
    intro l
    induction l with
    | nil => simp [splitChars, List.intercalate, List.intersperse]
    | cons c cs ih =>
      obtain ⟨ih1, ih2⟩ := ih
      by_cases hc : c = sep
      · subst hc
        have hne := splitChars_ne_nil c cs
        cases hs : splitChars c cs with
        | nil => exact absurd hs hne
        | cons piece pieces =>
          rw [hs] at ih1 ih2
          refine ⟨?_, ?_⟩
          · simp only [splitChars, if_true, hs]
            have : List.intercalate [c] ([] :: piece :: pieces) =
                c :: List.intercalate [c] (piece :: pieces) := by
              simp [List.intercalate, List.intersperse]
            rw [this, ih1]
          · intro p hp
            simp only [splitChars, if_true, hs, List.mem_cons] at hp
            rcases hp with rfl | hp
            · simp
            · exact ih2 p (List.mem_cons.mpr hp)
      · cases hs : splitChars sep cs with
        | nil => exact absurd hs (splitChars_ne_nil sep cs)
        | cons piece pieces =>
          rw [hs] at ih1 ih2
          refine ⟨?_, ?_⟩
          · simp only [splitChars, hc, if_false, hs]
            have : ∀ x : List Char, List.intercalate [sep] ((c :: x) :: pieces) =
                c :: List.intercalate [sep] (x :: pieces) := by
              intro x
              cases pieces <;> simp [List.intercalate, List.intersperse]
            rw [this, ih1]
          · intro p hp
            simp only [splitChars, hc, if_false, hs, List.mem_cons] at hp
            rcases hp with rfl | hp
            · have := ih2 piece (List.mem_cons_self _ _)
              simp only [List.mem_cons, not_or]
              exact ⟨Ne.symm hc, this⟩
            · exact ih2 p (List.mem_cons_of_mem _ hp)
  obtain ⟨k1, k2⟩ := key s.data
  refine ⟨?_, ?_⟩
  · unfold stringsJoin stringsSplit
    apply String.ext
    simp [List.map_map, Function.comp_def, k1]
  · intro p hp
    unfold stringsSplit at hp
    obtain ⟨q, hq, rfl⟩ := List.mem_map.mp hp
    exact k2 q hq

theorem resolveTagValue_plain (rt : Runtime) (v : String)
    (h : ¬ (stringsBeginsWith v "$\x7b" = true ∧ stringsEndsWith v "\x7d" = true)) :
    resolveTagValue rt v = v := by
  unfold resolveTagValue
  rw [if_neg]
  simpa using h

theorem braced_data (body : String) :
    ("$\x7b" ++ body ++ "\x7d").data = '$' :: '\x7b' :: (body.data ++ ['\x7d']) := by
  simp [String.data_append]

theorem resolveTagValue_braced (rt : Runtime) (body : String) :
    resolveTagValue rt ("$\x7b" ++ body ++ "\x7d") =
      (let (e, d, _) := stringsCut body ':'
       let v1 := rt.getenv e
       if v1 = "" ∧ d ≠ "" then d else v1) := by
  have hb : stringsBeginsWith ("$\x7b" ++ body ++ "\x7d") "$\x7b" = true := by
    simp [stringsBeginsWith, braced_data, List.isPrefixOf]
  have he : stringsEndsWith ("$\x7b" ++ body ++ "\x7d") "\x7d" = true := by
    unfold stringsEndsWith
    rw [List.isSuffixOf_iff_suffix, braced_data]
    exact ⟨'$' :: '\x7b' :: body.data, by simp⟩
  have hd : String.mk (("$\x7b" ++ body ++ "\x7d").data.drop 2).dropLast = body := by
    apply String.ext
    simp [braced_data]
  unfold resolveTagValue
  rw [hb, he, hd]
  simp

theorem resolveTagValue_env_default (rt : Runtime) (E D : String) (hE : ':' ∉ E.data) :
    resolveTagValue rt ("$\x7b" ++ E ++ ":" ++ D ++ "\x7d") =
      if rt.getenv E ≠ "" then rt.getenv E else D := by
  have hassoc : "$\x7b" ++ E ++ ":" ++ D ++ "\x7d" = "$\x7b" ++ (E ++ ":" ++ D) ++ "\x7d" := by
    simp [String.append_assoc]
  have hcut : stringsCut (E ++ ":" ++ D) ':' = (E, D, true) := by
    have hd : (E ++ ":" ++ D).data = E.data ++ ':' :: D.data := by
      simp [String.data_append]
    simp [stringsCut, hd, cutChars_append ':' E.data D.data hE]
  rw [hassoc, resolveTagValue_braced, hcut]
  by_cases h1 : rt.getenv E = ""
  · by_cases h2 : D = "" <;> simp [h1, h2]
  · simp [h1]

theorem resolveTagValue_env (rt : Runtime) (E : String) (hE : ':' ∉ E.data) :
    resolveTagValue rt ("$\x7b" ++ E ++ "\x7d") = rt.getenv E := by
  have hcut : stringsCut E ':' = (E, "", false) := by
    simp [stringsCut, (cutChars_eq_none_iff ':' E.data).mpr hE]
  rw [resolveTagValue_braced, hcut]
  simp

theorem filterMap_tagOf_length (rt : Runtime) (l : List String)
    (h : ∀ p ∈ l, ∃ r, segmentTag rt p = .ok r) :
    (l.filterMap (tagOf rt)).length = (l.filter fun p => p.data.contains '=').length := by
  induction l with
  | nil => rfl
  | cons p rest ih =>
    obtain ⟨r, hr⟩ := h p (List.mem_cons_self _ _)
    have hsome := tagOf_isSome_of_ok rt p r hr
    have ih1 := ih (fun q hq => h q (List.mem_cons_of_mem _ hq))
    cases ht : tagOf rt p with
    | none =>
      have hc : p.data.contains '=' = false := by rw [← hsome, ht]; rfl
      have hc1 : '=' ∉ p.data := by simpa using hc
      simp [List.filterMap_cons, ht, List.filter_cons, hc1, ih1]
    | some kv =>
      have hc : p.data.contains '=' = true := by rw [← hsome, ht]; rfl
      have hc1 : '=' ∈ p.data := by simpa using hc
      simp [List.filterMap_cons, ht, List.filter_cons, hc1, ih1]

theorem forall₂_tagOf (rt : Runtime) (l : List String)
    (h : ∀ p ∈ l, ∃ k v : String, p = k ++ "=" ++ v ∧ '=' ∉ k.data ∧
      resolveTagValue rt (stringsTrimSpace v) ≠ "") :
    List.Forall₂
      (fun p kv => ∃ k v : String, p = k ++ "=" ++ v ∧ '=' ∉ k.data ∧
        kv = { key := stringsTrimSpace k, value := resolveTagValue rt (stringsTrimSpace v) })
      l (l.filterMap (tagOf rt)) := by
  induction l with
  | nil => exact List.Forall₂.nil
  | cons p rest ih =>
    obtain ⟨k, v, rfl, hk, hres⟩ := h _ (List.mem_cons_self _ _)
    have ht : tagOf rt (k ++ "=" ++ v) =
        some { key := stringsTrimSpace k, value := resolveTagValue rt (stringsTrimSpace v) } := by
      simp [tagOf, segmentTag_of_key_value rt k v hk, hres]
    rw [List.filterMap_cons, ht]
    exact List.Forall₂.cons ⟨k, v, rfl, hk, rfl⟩
      (ih (fun q hq => h q (List.mem_cons_of_mem _ hq)))

/-- C15: `parseJaegerTags` follows the documented format. For every input whose comma-separated
segments are each of the form `key=value` (the key being the text before the first `=`) with a
non-empty resolved value, it returns without error one tag per segment, in input order: the
trimmed key with the resolved value. A plain trimmed value resolves to itself; a value of the
dollar-brace form with name `E` and default `D` resolves to the environment variable `E` when
that is non-empty and to `D` otherwise; the form with name `E` alone resolves to the
environment variable `E`. -/
theorem parseJaegerTags_documented_format (rt : Runtime) (s : String)
    (hseg : ∀ p ∈ stringsSplit s ',', ∃ k v : String, p = k ++ "=" ++ v ∧ '=' ∉ k.data ∧
      resolveTagValue rt (stringsTrimSpace v) ≠ "") :
    (∃ tags, parseJaegerTags rt s = .ok tags ∧
      List.Forall₂
        (fun p kv => ∃ k v : String, p = k ++ "=" ++ v ∧ '=' ∉ k.data ∧
          kv = { key := stringsTrimSpace k,
                 value := resolveTagValue rt (stringsTrimSpace v) })
        (stringsSplit s ',') tags) ∧
      (∀ v, ¬ (stringsBeginsWith v "$\x7b" = true ∧ stringsEndsWith v "\x7d" = true) →
        resolveTagValue rt v = v) ∧
      (∀ E D : String, ':' ∉ E.data →
        resolveTagValue rt ("$\x7b" ++ E ++ ":" ++ D ++ "\x7d") =
          if rt.getenv E ≠ "" then rt.getenv E else D) ∧
      (∀ E : String, ':' ∉ E.data →
        resolveTagValue rt ("$\x7b" ++ E ++ "\x7d") = rt.getenv E) := by
  refine ⟨?_, resolveTagValue_plain rt, resolveTagValue_env_default rt,
    resolveTagValue_env rt⟩
  have hok : ∀ p ∈ stringsSplit s ',', ∃ r, segmentTag rt p = .ok r := by
    intro p hp
    obtain ⟨k, v, rfl, hk, hres⟩ := hseg p hp
    exact ⟨_, by rw [segmentTag_of_key_value rt k v hk, if_neg hres]⟩
  refine ⟨(stringsSplit s ',').filterMap (tagOf rt), ?_, forall₂_tagOf rt _ hseg⟩
  unfold parseJaegerTags
  rw [parseJaegerTagsLoop_ok rt _ [] hok]
  simp

/-- Instance of C15: with `HOME=/root` in the environment, an input of two segments, `a=b` and
a key `c` whose value is the dollar-brace form for `HOME` with default `x`, gives the tags
`a=b` and `c=/root`. -/
theorem parseJaegerTags_documented_format_witness :
    parseJaegerTags (exampleRuntime [("HOME", "/root")]) "a=b, c = $\x7bHOME:x\x7d" =
        .ok [{ key := "a", value := "b" }, { key := "c", value := "/root" }] ∧
      ∃ tags, parseJaegerTags (exampleRuntime [("HOME", "/root")]) "a=b, c = $\x7bHOME:x\x7d" =
          .ok tags ∧
        List.Forall₂
          (fun p kv => ∃ k v : String, p = k ++ "=" ++ v ∧ '=' ∉ k.data ∧
            kv = { key := stringsTrimSpace k,
                   value := resolveTagValue (exampleRuntime [("HOME", "/root")])
                     (stringsTrimSpace v) })
          (stringsSplit "a=b, c = $\x7bHOME:x\x7d" ',') tags :=
  ⟨by rfl,
    (parseJaegerTags_documented_format (exampleRuntime [("HOME", "/root")])
      "a=b, c = $\x7bHOME:x\x7d" (by
        intro p hp
        have hs : stringsSplit "a=b, c = $\x7bHOME:x\x7d" ',' =
            ["a=b", " c = $\x7bHOME:x\x7d"] := by decide
        rw [hs] at hp
        simp only [List.mem_cons, List.mem_singleton, List.not_mem_nil, or_false] at hp
        rcases hp with rfl | rfl
        · exact ⟨"a", "b", by decide, by decide, by decide⟩
        · exact ⟨" c ", " $\x7bHOME:x\x7d", by decide, by decide, by decide⟩)).1⟩

/-- Whenever `JAEGER_ENDPOINT` is unset, a configuration that `parseTracingConfig` returns
without error has a non-empty `agentHostPort`, so the blank-configuration test of `NewFromEnv`
cannot succeed. -/
theorem parseTracingConfig_agentHostPort (rt : Runtime) (cfg : config)
    (hend : rt.getenv envJaegerEndpoint = "") (h : parseTracingConfig rt = (cfg, none)) :
    cfg.agentHostPort ≠ "" := by
  have hj : ∀ host port : String, joinHostPort host port ≠ "" := by
    intro host port hempty
    have hd := congrArg String.data hempty
    unfold joinHostPort at hd
    split_ifs at hd <;> simp [String.data_append] at hd
  have hrep : (parseReporter rt config.zero).2 = none ∧
      (parseReporter rt config.zero).1.agentHostPort ≠ "" := by
    simp only [parseReporter, hend, ne_eq, not_true_eq_false, if_false, config.zero, or_true,
      if_true, true_and]
    exact hj _ _
  rcases hpr : parseReporter rt config.zero with ⟨c0, e0⟩
  rw [hpr] at hrep
  obtain ⟨he0, hne⟩ := hrep
  simp only at he0 hne
  subst he0
  unfold parseTracingConfig at h
  rw [hpr] at h
  simp only at h
  by_cases hp : rt.getenv envJaegerSamplerParam = ""
  · simp only [hp, ne_eq, not_true_eq_false, if_false] at h
    split at h
    · simp at h
    · simp only [Prod.mk.injEq, and_true] at h
      rw [← h]
      simp only
      split_ifs <;> exact hne
  · simp only [hp, ne_eq, not_false_eq_true, if_true] at h
    split at h
    · simp at h
    · simp only [errorsWrapNilable, Option.map_none', Prod.mk.injEq, and_true] at h
      rw [← h]
      split_ifs <;> exact hne

theorem braced_decompose (t : String) (hb : stringsBeginsWith t "$\x7b" = true)
    (he : stringsEndsWith t "\x7d" = true) : ∃ body : String, t = "$\x7b" ++ body ++ "\x7d" := by
  unfold stringsBeginsWith at hb
  unfold stringsEndsWith at he
  rw [List.isPrefixOf_iff_prefix] at hb
  rw [List.isSuffixOf_iff_suffix] at he
  obtain ⟨rest, hrest⟩ := hb
  obtain ⟨front, hfront⟩ := he
  have hrest1 : t.data = '$' :: '\x7b' :: rest := hrest.symm
  have hfront1 : t.data = front ++ ['\x7d'] := hfront.symm
  have hne : rest ≠ [] := by
    intro h0
    rw [h0] at hrest1
    have h1 := congrArg List.getLast? hrest1
    have h2 := congrArg List.getLast? hfront1
    rw [h1] at h2
    simp at h2
  have hlast : rest.getLast hne = '\x7d' := by
    have h1 : t.data.getLast? = some (rest.getLast hne) := by
      rw [hrest1]
      cases rest with
      | nil => exact absurd rfl hne
      | cons x xs => simp [List.getLast?_cons_cons, List.getLast?_eq_getLast]
    have h2 : t.data.getLast? = some '\x7d' := by
      rw [hfront1]; simp
    rw [h1] at h2
    exact Option.some.inj h2
  refine ⟨String.mk rest.dropLast, ?_⟩
  apply String.ext
  rw [braced_data, hrest1]
  have := List.dropLast_append_getLast hne
  rw [hlast] at this
  simp [this]

/-- The resolved value of a trimmed tag value `t` is empty exactly when `t` is empty, or `t` is
one of the dollar-brace forms with name `E` and no default, or with name `E` and an empty
default, and the environment variable `E` is unset or empty. -/
theorem resolveTagValue_eq_empty_iff (rt : Runtime) (t : String) :
    resolveTagValue rt t = "" ↔
      (t = "" ∨ ∃ E : String, ':' ∉ E.data ∧ rt.getenv E = "" ∧
        (t = "$\x7b" ++ E ++ "\x7d" ∨ t = "$\x7b" ++ E ++ ":" ++ "\x7d")) := by
  constructor
  · intro hres
    by_cases hbr : stringsBeginsWith t "$\x7b" = true ∧ stringsEndsWith t "\x7d" = true
    · right
      obtain ⟨body, rfl⟩ := braced_decompose t hbr.1 hbr.2
      cases hc : cutChars ':' body.data with
      | none =>
        have hE := (cutChars_eq_none_iff ':' body.data).mp hc
        rw [resolveTagValue_env rt body hE] at hres
        exact ⟨body, hE, hres, Or.inl rfl⟩
      | some ba =>
        obtain ⟨b, a⟩ := ba
        obtain ⟨h1, h2⟩ := cutChars_eq_some ':' body.data b a hc
        have hbody : body = String.mk b ++ ":" ++ String.mk a := by
          apply String.ext
          simp [String.data_append, h1]
        have hassoc : "$\x7b" ++ body ++ "\x7d" =
            "$\x7b" ++ String.mk b ++ ":" ++ String.mk a ++ "\x7d" := by
          rw [hbody]; simp [String.append_assoc]
        rw [hassoc, resolveTagValue_env_default rt (String.mk b) (String.mk a) h2] at hres
        by_cases hg : rt.getenv (String.mk b) = ""
        · simp only [hg, ne_eq, not_true_eq_false, if_false] at hres
          refine ⟨String.mk b, h2, hg, Or.inr ?_⟩
          rw [hassoc, hres]
          simp
        · simp only [hg, ne_eq, not_false_eq_true, if_true] at hres
    · left
      rw [resolveTagValue_plain rt t hbr] at hres
      exact hres
  · rintro (rfl | ⟨E, hE, hg, rfl | rfl⟩)
    · exact resolveTagValue_plain rt "" (by decide)
    · rw [resolveTagValue_env rt E hE, hg]
    · have h := resolveTagValue_env_default rt E "" hE
      simp only [String.append_empty, hg, ne_eq, not_true_eq_false, if_false] at h
      exact h

/-- What `strings.TrimSpace` returns: the input is white space, then the result, then white
space, and the result neither begins nor ends with white space. -/
theorem stringsTrimSpace_spec (v : String) :
    (∃ a b : String, v = a ++ stringsTrimSpace v ++ b ∧
        (∀ c ∈ a.data, unicodeIsSpace c = true) ∧ (∀ c ∈ b.data, unicodeIsSpace c = true)) ∧
      (∀ c, (stringsTrimSpace v).data.head? = some c → unicodeIsSpace c = false) ∧
      (∀ c, (stringsTrimSpace v).data.getLast? = some c → unicodeIsSpace c = false) := by
  have hmid : v.data.dropWhile unicodeIsSpace =
      (stringsTrimSpace v).data ++
        ((v.data.dropWhile unicodeIsSpace).reverse.takeWhile unicodeIsSpace).reverse := by
    have h := List.takeWhile_append_dropWhile unicodeIsSpace
      (v.data.dropWhile unicodeIsSpace).reverse
    have h2 := congrArg List.reverse h
    simp only [List.reverse_append, List.reverse_reverse] at h2
    exact h2.symm
  have hlast : ∀ c, (stringsTrimSpace v).data.getLast? = some c → unicodeIsSpace c = false := by
    intro c hc
    have h1 : (stringsTrimSpace v).data.getLast? =
        ((v.data.dropWhile unicodeIsSpace).reverse.dropWhile unicodeIsSpace).head? := by
      simp [stringsTrimSpace, List.getLast?_reverse]
    rw [h1] at hc
    have := List.head?_dropWhile_not unicodeIsSpace (v.data.dropWhile unicodeIsSpace).reverse
    rw [hc] at this
    simpa using this
  refine ⟨⟨String.mk (v.data.takeWhile unicodeIsSpace),
    String.mk ((v.data.dropWhile unicodeIsSpace).reverse.takeWhile unicodeIsSpace).reverse,
    ?_, ?_, ?_⟩, ?_, hlast⟩
  · apply String.ext
    simp only [String.data_append]
    rw [List.append_assoc, ← hmid, List.takeWhile_append_dropWhile]
  · intro c hc
    exact (List.mem_takeWhile_imp hc)
  · intro c hc
    simp only [List.mem_reverse] at hc
    exact (List.mem_takeWhile_imp hc)
  · intro c hc
    cases htrim : (stringsTrimSpace v).data with
    | nil => rw [htrim] at hc; cases hc
    | cons x xs =>
      rw [htrim] at hc hmid
      simp only [List.head?_cons, Option.some.injEq] at hc
      subst hc
      have := List.head?_dropWhile_not unicodeIsSpace v.data
      rw [hmid] at this
      simpa using this

/-- A segment makes `parseJaegerTags` fail exactly when it is non-empty without `=`, or has a
`=` and a trimmed value that is empty or is a dollar-brace form (name alone, or name with an
empty default) whose environment variable is unset or empty. -/
theorem segmentTag_error_iff_forms (rt : Runtime) (p : String) :
    (∃ e, segmentTag rt p = .error e) ↔
      ((p ≠ "" ∧ '=' ∉ p.data) ∨
        ∃ k v : String, p = k ++ "=" ++ v ∧ '=' ∉ k.data ∧
          (stringsTrimSpace v = "" ∨
            ∃ E : String, ':' ∉ E.data ∧ rt.getenv E = "" ∧
              (stringsTrimSpace v = "$\x7b" ++ E ++ "\x7d" ∨
                stringsTrimSpace v = "$\x7b" ++ E ++ ":" ++ "\x7d"))) := by
  rw [segmentTag_error_iff]
  constructor
  · rintro (h | ⟨k, v, hp, hk, hres⟩)
    · exact Or.inl h
    · exact Or.inr ⟨k, v, hp, hk, (resolveTagValue_eq_empty_iff rt _).mp hres⟩
  · rintro (h | ⟨k, v, hp, hk, hres⟩)
    · exact Or.inl h
    · exact Or.inr ⟨k, v, hp, hk, (resolveTagValue_eq_empty_iff rt _).mpr hres⟩

/-- C19: `parseJaegerTags` returns an error (with a nil list) if and only if some
comma-separated segment of the input is non-empty and contains no `=`, or contains `=` while its
trimmed value is empty after resolution: the trimmed value is empty, or it is the dollar-brace
form with a name `E` alone or with `E` and an empty default, and the environment variable `E`
is unset or empty. Empty segments are skipped: the empty string parses to the empty list with
no error, and the length of a result equals the number of segments that contain `=`. The
segments are the comma-free pieces that joined by commas give the input, and the trimmed value
is the value without its leading and trailing white space. -/
theorem parseJaegerTags_error_iff (rt : Runtime) (s : String) :
    ((∃ e, parseJaegerTags rt s = .error e) ↔
        ∃ p ∈ stringsSplit s ',', (p ≠ "" ∧ '=' ∉ p.data) ∨
          ∃ k v : String, p = k ++ "=" ++ v ∧ '=' ∉ k.data ∧
            (stringsTrimSpace v = "" ∨
              ∃ E : String, ':' ∉ E.data ∧ rt.getenv E = "" ∧
                (stringsTrimSpace v = "$\x7b" ++ E ++ "\x7d" ∨
                  stringsTrimSpace v = "$\x7b" ++ E ++ ":" ++ "\x7d"))) ∧
      parseJaegerTags rt "" = .ok [] ∧
      (∀ tags, parseJaegerTags rt s = .ok tags →
        tags.length = ((stringsSplit s ',').filter fun p => p.data.contains '=').length) ∧
      (stringsJoin (stringsSplit s ',') ',' = s ∧ ∀ p ∈ stringsSplit s ',', ',' ∉ p.data) ∧
      ∀ v : String,
        (∃ a b : String, v = a ++ stringsTrimSpace v ++ b ∧
          (∀ c ∈ a.data, unicodeIsSpace c = true) ∧ (∀ c ∈ b.data, unicodeIsSpace c = true)) ∧
        (∀ c, (stringsTrimSpace v).data.head? = some c → unicodeIsSpace c = false) ∧
        (∀ c, (stringsTrimSpace v).data.getLast? = some c → unicodeIsSpace c = false) := by
  refine ⟨?_, rfl, ?_, stringsJoin_split s ',', stringsTrimSpace_spec⟩
  · constructor
    · intro ⟨e, he⟩
      by_contra hno
      have hok : ∀ p ∈ stringsSplit s ',', ∃ r, segmentTag rt p = .ok r := by
        intro p hp
        cases hp1 : segmentTag rt p with
        | ok r => exact ⟨r, rfl⟩
        | error e1 =>
          exact absurd ⟨p, hp, (segmentTag_error_iff_forms rt p).mp ⟨e1, hp1⟩⟩ hno
      unfold parseJaegerTags at he
      rw [parseJaegerTagsLoop_ok rt _ [] hok] at he
      cases he
    · intro ⟨p, hp, hbad⟩
      exact parseJaegerTagsLoop_error rt _ []
        ⟨p, hp, (segmentTag_error_iff_forms rt p).mpr hbad⟩
  · intro tags htags
    have hok : ∀ p ∈ stringsSplit s ',', ∃ r, segmentTag rt p = .ok r := by
      intro p hp
      cases hp1 : segmentTag rt p with
      | ok r => exact ⟨r, rfl⟩
      | error e1 =>
        obtain ⟨e, he⟩ := parseJaegerTagsLoop_error rt (stringsSplit s ',') [] ⟨p, hp, e1, hp1⟩
        unfold parseJaegerTags at htags
        rw [he] at htags
        cases htags
    unfold parseJaegerTags at htags
    rw [parseJaegerTagsLoop_ok rt _ [] hok] at htags
    simp only [List.nil_append, Except.ok.injEq] at htags
    rw [← htags]
    exact filterMap_tagOf_length rt _ hok

/-- Instances of C19 in an environment where only `HOME` is set: a segment whose value names
the unset variable `NOPE` with no default is an error, a segment without `=` is an error, and
an input of two good segments and one empty segment parses to two tags. -/
theorem parseJaegerTags_error_examples :
    parseJaegerTags (exampleRuntime [("HOME", "/root")]) "k=$\x7bNOPE\x7d" =
        .error { text := "invalid tag \"k=$\x7bNOPE\x7d\", expected key=value" } ∧
      parseJaegerTags (exampleRuntime [("HOME", "/root")]) "a=b,c" =
        .error { text := "invalid tag \"c\", expected key=value" } ∧
      parseJaegerTags (exampleRuntime [("HOME", "/root")]) "a=b,,c= $\x7bNOPE:d\x7d " =
        .ok [{ key := "a", value := "b" }, { key := "c", value := "d" }] :=
  ⟨rfl, rfl, rfl⟩

end tracing

namespace storegateway

/-! ## The once-gate with its mutex, under interleaving -/

theorem any_set_mono {α : Type} (f : α → Bool) (l : List α) (i : Nat) (a b : α)
    (h : l[i]? = some a) (hm : f a = true → f b = true) :
    (l.set i b).any f = (l.any f || f b) := by
  induction l generalizing i with
  | nil => simp at h
  | cons x rest ih =>
    cases i with
    | zero =>
      simp only [List.getElem?_cons_zero, Option.some.injEq] at h
      subst h
      simp only [List.set_cons_zero, List.any_cons]
      cases ha : f x <;> cases h1 : f b <;> cases hr : rest.any f <;> simp_all
    | succ i =>
      simp only [List.getElem?_cons_succ] at h
      simp only [List.set_cons_succ, List.any_cons, ih i h, Bool.or_assoc]

theorem once_step_gate (i : Nat) (l : Limiter) (holder : Option Nat) (g : OnceGoroutine)
    (hg : g.phase.inGate = true ↔ holder = some i) :
    ((g.step i l holder).2.2.phase.inGate = true ↔ (g.step i l holder).2.1 = some i) ∧
      ∀ j, j ≠ i → ((g.step i l holder).2.1 = some j ↔ holder = some j) := by
  obtain ⟨num, phase⟩ := g
  cases phase with
  | start =>
    by_cases h : l.limit = 0 <;>
      simpa [OnceGoroutine.step, Limiter.reservedAdd, OncePhase.inGate, h] using hg
  | added r =>
    simp only [OnceGoroutine.step]
    split_ifs <;> simpa [OncePhase.inGate] using hg
  | onceSlow =>
    cases holder with
    | none =>
      simp only [OnceGoroutine.step, OncePhase.inGate]
      refine ⟨by simp, fun j hj => ?_⟩
      simp [Ne.symm hj]
    | some k => simpa [OnceGoroutine.step, OncePhase.inGate] using hg
  | onceLocked =>
    simp only [OnceGoroutine.step]
    split_ifs <;> simpa [OncePhase.inGate] using hg
  | onceRan => simpa [OnceGoroutine.step, OncePhase.inGate] using hg
  | onceUnlock =>
    have hh : holder = some i := hg.mp rfl
    subst hh
    simp only [OnceGoroutine.step, OncePhase.inGate]
    refine ⟨by simp, fun j hj => ?_⟩
    simp [Ne.symm hj]
  | onceDone =>
    simp only [OnceGoroutine.step]
    split_ifs <;> simpa [OncePhase.inGate] using hg
  | loaded f v => simpa [OnceGoroutine.step, OncePhase.inGate] using hg
  | finished e => simpa [OnceGoroutine.step, OncePhase.inGate] using hg

theorem once_step_done (i : Nat) (l : Limiter) (holder : Option Nat) (g : OnceGoroutine) :
    (g.step i l holder).1.failedOnce =
        (l.failedOnce || ((g.step i l holder).2.2.phase.late && !g.phase.late)) ∧
      (g.phase.late = true → (g.step i l holder).2.2.phase.late = true) := by
  obtain ⟨num, phase⟩ := g
  cases phase with
  | start =>
    by_cases h : l.limit = 0 <;>
      simp [OnceGoroutine.step, Limiter.reservedAdd, OncePhase.late, h]
  | added r =>
    simp only [OnceGoroutine.step]
    split_ifs <;> simp_all [OncePhase.late]
  | onceSlow => cases holder <;> simp [OnceGoroutine.step, OncePhase.late]
  | onceLocked =>
    simp only [OnceGoroutine.step]
    split_ifs <;> simp_all [OncePhase.late]
  | onceRan => simp [OnceGoroutine.step, OncePhase.late]
  | onceUnlock => simp [OnceGoroutine.step, OncePhase.late]
  | onceDone =>
    simp only [OnceGoroutine.step]
    split_ifs <;> simp [OncePhase.late]
  | loaded f v => cases f <;> simp [OnceGoroutine.step, OncePhase.late]
  | finished e => cases e <;> simp [OnceGoroutine.step, OncePhase.late]

theorem once_step_counter (i : Nat) (l : Limiter) (holder : Option Nat) (g : OnceGoroutine) :
    (g.step i l holder).1.failedCounter =
        l.failedCounter +
          (if (g.step i l holder).2.2.phase.isRan && !g.phase.isRan then 1 else 0) ∧
      (g.phase.isRan = false → (g.step i l holder).1.failedOnce = l.failedOnce) ∧
      (g.phase.isRan = true →
        (g.step i l holder).2.2.phase.isRan = false ∧
          (g.step i l holder).1.failedOnce = true) ∧
      ((g.step i l holder).2.2.phase.isRan = true → g.phase.isRan = false →
        l.failedOnce = false ∧ g.phase.inGate = true) := by
  obtain ⟨num, phase⟩ := g
  cases phase with
  | start =>
    by_cases h : l.limit = 0 <;>
      simp [OnceGoroutine.step, Limiter.reservedAdd, OncePhase.isRan, h]
  | added r =>
    by_cases h1 : r > l.limit <;> by_cases h2 : l.failedOnce = true <;>
      by_cases h3 : (num ≠ 0 ∧ l.logger.isSome = true) <;>
      simp [OnceGoroutine.step, OncePhase.isRan, h1, h2, h3]
  | onceSlow => cases holder <;> simp [OnceGoroutine.step, OncePhase.isRan]
  | onceLocked =>
    by_cases h2 : l.failedOnce = true <;>
      simp [OnceGoroutine.step, OncePhase.isRan, OncePhase.inGate, h2]
  | onceRan => simp [OnceGoroutine.step, OncePhase.isRan]
  | onceUnlock => simp [OnceGoroutine.step, OncePhase.isRan]
  | onceDone =>
    by_cases h3 : l.logger.isSome = true <;>
      simp [OnceGoroutine.step, OncePhase.isRan, h3]
  | loaded f v => simp [OnceGoroutine.step, OncePhase.isRan]
  | finished e => simp [OnceGoroutine.step, OncePhase.isRan]

theorem once_config_step_eq (c : OnceConfig) (i : Nat) (g : OnceGoroutine)
    (hg : c.goroutines[i]? = some g) :
    c.step i =
      { limiter := (g.step i c.limiter c.onceHolder).1,
        onceHolder := (g.step i c.limiter c.onceHolder).2.1,
        goroutines := c.goroutines.set i (g.step i c.limiter c.onceHolder).2.2 } := by
  unfold OnceConfig.step
  rw [hg]

theorem once_config_step_none (c : OnceConfig) (i : Nat) (hg : c.goroutines[i]? = none) :
    c.step i = c := by
  unfold OnceConfig.step
  rw [hg]

theorem once_config_step_invariant (c : OnceConfig) (i ctr : Nat)
    (hA : ∀ j g, c.goroutines[j]? = some g → (g.phase.inGate = true ↔ c.onceHolder = some j))
    (hA2 : ∀ j, c.onceHolder = some j → ∃ g, c.goroutines[j]? = some g)
    (hB : c.limiter.failedCounter =
      ctr + (if (c.limiter.failedOnce || c.goroutines.any fun g => g.phase.isRan) then 1 else 0))
    (hC : c.limiter.failedOnce = c.goroutines.any fun g => g.phase.late) :
    (∀ j g, (c.step i).goroutines[j]? = some g →
        (g.phase.inGate = true ↔ (c.step i).onceHolder = some j)) ∧
      (∀ j, (c.step i).onceHolder = some j → ∃ g, (c.step i).goroutines[j]? = some g) ∧
      (c.step i).limiter.failedCounter =
        ctr + (if ((c.step i).limiter.failedOnce ||
          (c.step i).goroutines.any fun g => g.phase.isRan) then 1 else 0) ∧
      (c.step i).limiter.failedOnce = ((c.step i).goroutines.any fun g => g.phase.late) := by
  cases hgi : c.goroutines[i]? with
  | none =>
    rw [once_config_step_none c i hgi]
    exact ⟨hA, hA2, hB, hC⟩
  | some g =>
    have hg := hgi
    rw [once_config_step_eq c i g hg]
    have hlt : i < c.goroutines.length := by
      by_contra hn
      rw [List.getElem?_eq_none (by omega)] at hg
      cases hg
    obtain ⟨hgate, hother⟩ := once_step_gate i c.limiter c.onceHolder g (hA i g hg)
    obtain ⟨hdone, hlate⟩ := once_step_done i c.limiter c.onceHolder g
    obtain ⟨hcnt, hkeep, hstore, hinc⟩ := once_step_counter i c.limiter c.onceHolder g
    have hmem : g ∈ c.goroutines := List.getElem?_mem hg
    have hanyLate := any_set_mono (fun g => g.phase.late) c.goroutines i g
      (g.step i c.limiter c.onceHolder).2.2 hg hlate
    have hgin : g.phase.inGate = true → c.onceHolder = some i := (hA i g hg).mp
    generalize g.step i c.limiter c.onceHolder = res at *
    obtain ⟨l1, h1, g1⟩ := res
    simp only at *
    refine ⟨?_, ?_, ?_, ?_⟩
    · intro j gj hj
      by_cases hji : j = i
      · subst hji
        simp only [List.getElem?_set, hlt, if_true, Option.some.injEq] at hj
        subst hj
        exact hgate
      · simp only [List.getElem?_set, Ne.symm hji, if_false] at hj
        rw [hother j hji]
        exact hA j gj hj
    · intro j hj
      by_cases hji : j = i
      · subst hji
        exact ⟨g1, by simp [List.getElem?_set, hlt]⟩
      · obtain ⟨gj, hgj⟩ := hA2 j ((hother j hji).mp hj)
        exact ⟨gj, by simp [List.getElem?_set, Ne.symm hji, hgj]⟩
    · cases hr : g.phase.isRan with
      | true =>
        obtain ⟨hr1, hd1⟩ := hstore hr
        have hanyRan : (c.goroutines.any fun g => g.phase.isRan) = true :=
          List.any_eq_true.mpr ⟨g, hmem, hr⟩
        rw [hcnt, hr1, hd1, hB, hanyRan]
        simp
      | false =>
        have hd1 := hkeep hr
        have hanyRan := any_set_mono (fun g => g.phase.isRan) c.goroutines i g g1 hg
          (by simp [hr])
        try simp only at hanyRan
        cases hr1 : g1.phase.isRan with
        | false =>
          rw [hcnt, hd1, hanyRan, hr1, hB]
          simp
        | true =>
          obtain ⟨hd0, hgin1⟩ := hinc hr1 hr
          have hnone : (c.goroutines.any fun g => g.phase.isRan) = false := by
            cases hx : (c.goroutines.any fun g => g.phase.isRan) with
            | false => rfl
            | true =>
              exfalso
              obtain ⟨x, hxm, hxr⟩ := List.any_eq_true.mp hx
              obtain ⟨j, hj⟩ := List.mem_iff_getElem?.mp hxm
              have hxin : x.phase.inGate = true := by
                cases hxp : x.phase <;> simp_all [OncePhase.isRan, OncePhase.inGate]
              have k1 := (hA j x hj).mp hxin
              have k2 := hgin hgin1
              rw [k1] at k2
              have hji : j = i := Option.some.inj k2
              subst hji
              rw [hg] at hj
              cases hj
              rw [hr] at hxr
              cases hxr
          rw [hcnt, hd1, hanyRan, hr1, hB, hd0, hnone, hr]
          simp
    · try simp only at hanyLate
      rw [hanyLate, hdone, hC]
      have hgl : g.phase.late = true → (c.goroutines.any fun g => g.phase.late) = true :=
        fun h => List.any_eq_true.mpr ⟨g, hmem, h⟩
      cases hA1 : (c.goroutines.any fun g => g.phase.late) <;>
        cases hB1 : g1.phase.late <;> cases hC1 : g.phase.late <;> simp_all

theorem once_config_run_invariant (c : OnceConfig) (sched : List Nat) (ctr : Nat)
    (hA : ∀ j g, c.goroutines[j]? = some g → (g.phase.inGate = true ↔ c.onceHolder = some j))
    (hA2 : ∀ j, c.onceHolder = some j → ∃ g, c.goroutines[j]? = some g)
    (hB : c.limiter.failedCounter =
      ctr + (if (c.limiter.failedOnce || c.goroutines.any fun g => g.phase.isRan) then 1 else 0))
    (hC : c.limiter.failedOnce = c.goroutines.any fun g => g.phase.late) :
    (∀ j g, (c.run sched).goroutines[j]? = some g →
        (g.phase.inGate = true ↔ (c.run sched).onceHolder = some j)) ∧
      (∀ j, (c.run sched).onceHolder = some j → ∃ g, (c.run sched).goroutines[j]? = some g) ∧
      (c.run sched).limiter.failedCounter =
        ctr + (if ((c.run sched).limiter.failedOnce ||
          (c.run sched).goroutines.any fun g => g.phase.isRan) then 1 else 0) ∧
      (c.run sched).limiter.failedOnce = ((c.run sched).goroutines.any fun g => g.phase.late) := by
  induction sched generalizing c with
  | nil => exact ⟨hA, hA2, hB, hC⟩
  | cons i rest ih =>
    obtain ⟨k1, k2, k3, k4⟩ := once_config_step_invariant c i ctr hA hA2 hB hC
    exact ih (c.step i) k1 k2 k3 k4

theorem spawnOnce_invariant (L ctr : Nat) (logger : Option (List LogRecord)) (nums : List Nat) :
    (∀ j g, (spawnOnce (NewLimiter L ctr logger) nums).goroutines[j]? = some g →
        (g.phase.inGate = true ↔ (spawnOnce (NewLimiter L ctr logger) nums).onceHolder = some j)) ∧
      (∀ j, (spawnOnce (NewLimiter L ctr logger) nums).onceHolder = some j →
        ∃ g, (spawnOnce (NewLimiter L ctr logger) nums).goroutines[j]? = some g) ∧
      (spawnOnce (NewLimiter L ctr logger) nums).limiter.failedCounter =
        ctr + (if ((spawnOnce (NewLimiter L ctr logger) nums).limiter.failedOnce ||
          (spawnOnce (NewLimiter L ctr logger) nums).goroutines.any fun g => g.phase.isRan)
            then 1 else 0) ∧
      (spawnOnce (NewLimiter L ctr logger) nums).limiter.failedOnce =
        ((spawnOnce (NewLimiter L ctr logger) nums).goroutines.any fun g => g.phase.late) := by
  have hstart : ∀ g ∈ (spawnOnce (NewLimiter L ctr logger) nums).goroutines,
      g.phase = .start := by
    intro g hg
    simp only [spawnOnce, List.mem_map] at hg
    obtain ⟨n, _, rfl⟩ := hg
    rfl
  have hany : ∀ f : OncePhase → Bool, f .start = false →
      ((spawnOnce (NewLimiter L ctr logger) nums).goroutines.any fun g => f g.phase) = false := by
    intro f hf
    rw [List.any_eq_false]
    intro g hg
    rw [hstart g hg, hf]
    simp
  refine ⟨?_, ?_, ?_, ?_⟩
  · intro j g hj
    rw [hstart g (List.getElem?_mem hj)]
    simp [spawnOnce, OncePhase.inGate]
  · intro j hj
    simp [spawnOnce] at hj
  · rw [hany OncePhase.isRan rfl]
    simp [spawnOnce, NewLimiter]
  · rw [hany OncePhase.late rfl]
    simp [spawnOnce, NewLimiter]

theorem any_pastCall {gs : List OnceGoroutine} :
    (gs.any fun g => g.phase.pastCall) =
      ((gs.any fun g => g.phase.late) || gs.any fun g => g.phase.isRan) := by
  induction gs with
  | nil => rfl
  | cons g rest ih =>
    rw [List.any_cons, List.any_cons, List.any_cons, ih]
    simp only [OncePhase.pastCall]
    cases g.phase.isRan <;> cases g.phase.late <;>
      cases (rest.any fun g => g.phase.late) <;> cases (rest.any fun g => g.phase.isRan) <;> rfl

theorem set_of_getElem? {α : Type} (l : List α) (i : Nat) (a : α) (h : l[i]? = some a) :
    l.set i a = l := by
  induction l generalizing i with
  | nil => rfl
  | cons x rest ih =>
    cases i with
    | zero =>
      simp only [List.getElem?_cons_zero, Option.some.injEq] at h
      subst h
      rfl
    | succ i =>
      simp only [List.getElem?_cons_succ] at h
      simp only [List.set_cons_succ, ih i h]

/-- A goroutine that has to wait is left where it is by its step, and with it the limiter and
the mutex; a goroutine that does not have to wait and has not returned moves to another
phase. -/
theorem once_step_waits (i : Nat) (l : Limiter) (holder : Option Nat) (g : OnceGoroutine) :
    (g.phase.waits holder = true → g.step i l holder = (l, holder, g)) ∧
      (g.phase.waits holder = false → g.phase.isFinished = false →
        (g.step i l holder).2.2.phase ≠ g.phase) := by
  obtain ⟨num, phase⟩ := g
  cases phase with
  | start =>
    by_cases h : l.limit = 0 <;>
      simp [OnceGoroutine.step, Limiter.reservedAdd, OncePhase.waits, h]
  | added r =>
    by_cases h1 : r > l.limit <;> by_cases h2 : l.failedOnce = true <;>
      by_cases h3 : (num ≠ 0 ∧ l.logger.isSome = true) <;>
      simp [OnceGoroutine.step, OncePhase.waits, h1, h2, h3]
  | onceSlow => cases holder <;> simp [OnceGoroutine.step, OncePhase.waits]
  | onceLocked =>
    by_cases h2 : l.failedOnce = true <;> simp [OnceGoroutine.step, OncePhase.waits, h2]
  | onceRan => simp [OnceGoroutine.step, OncePhase.waits]
  | onceUnlock => simp [OnceGoroutine.step, OncePhase.waits]
  | onceDone =>
    by_cases h3 : l.logger.isSome = true <;> simp [OnceGoroutine.step, OncePhase.waits, h3]
  | loaded f v => simp [OnceGoroutine.step, OncePhase.waits]
  | finished e => simp [OnceGoroutine.step, OncePhase.waits, OncePhase.isFinished]

/-- C16, refuted as stated: two goroutines call `Reserve(2)` on a limiter with limit 1. Both
add, both see a total above the limit and find the once-gate not yet fired, and goroutine 0
locks the mutex of `failedOnce`. Goroutine 1 is then inside `Reserve`, at `o.m.Lock()`, and has
to wait: however often it is scheduled, nothing changes until goroutine 0 has unlocked. So
`Reserve` can block. -/
theorem Reserve_waits_at_once_gate_counterexample :
    ((spawnOnce (NewLimiter 1 7 none) [2, 2]).run [0, 1, 0, 1, 0]).goroutines =
        [{ num := 2, phase := .onceLocked }, { num := 2, phase := .onceSlow }] ∧
      OncePhase.waits ((spawnOnce (NewLimiter 1 7 none) [2, 2]).run [0, 1, 0, 1, 0]).onceHolder
        .onceSlow = true ∧
      ((spawnOnce (NewLimiter 1 7 none) [2, 2]).run [0, 1, 0, 1, 0]).run [1, 1, 1, 1] =
        (spawnOnce (NewLimiter 1 7 none) [2, 2]).run [0, 1, 0, 1, 0] := by
  decide

/-- C16, amended: when any number of goroutines call `Reserve` on one fresh limiter, then under
every interleaving of their steps the failure counter stands at its initial value until the
first goroutine calls `Inc` inside `failedOnce.Do`, and one above it from then on, however many
goroutines observe `reserved > limit`: it is incremented exactly once. A goroutine has to wait
at one point only, the `Lock` inside `failedOnce.Do`, and exactly while another goroutine is
between that `Lock` and its `Unlock`; that other goroutine does not wait. To wait means that
being scheduled changes nothing; a goroutine that does not wait and has not returned moves on
with its step. -/
theorem failedCounter_once_with_gate (L ctr : Nat) (logger : Option (List LogRecord))
    (nums sched : List Nat) :
    ((spawnOnce (NewLimiter L ctr logger) nums).run sched).limiter.failedCounter =
        ctr + (if (((spawnOnce (NewLimiter L ctr logger) nums).run sched).goroutines.any
          fun g => g.phase.pastCall) then 1 else 0) ∧
      ∀ (i : Nat) (g : OnceGoroutine),
        ((spawnOnce (NewLimiter L ctr logger) nums).run sched).goroutines[i]? = some g →
        (g.phase.waits ((spawnOnce (NewLimiter L ctr logger) nums).run sched).onceHolder = true ↔
          g.phase = .onceSlow ∧
            ∃ (j : Nat) (h : OnceGoroutine), j ≠ i ∧
              ((spawnOnce (NewLimiter L ctr logger) nums).run sched).goroutines[j]? = some h ∧
              h.phase.inGate = true ∧
              h.phase.waits
                ((spawnOnce (NewLimiter L ctr logger) nums).run sched).onceHolder = false) ∧
        (g.phase.waits ((spawnOnce (NewLimiter L ctr logger) nums).run sched).onceHolder = true →
          ((spawnOnce (NewLimiter L ctr logger) nums).run sched).step i =
            (spawnOnce (NewLimiter L ctr logger) nums).run sched) ∧
        (g.phase.waits ((spawnOnce (NewLimiter L ctr logger) nums).run sched).onceHolder = false →
          g.phase.isFinished = false →
          ∃ g1 : OnceGoroutine,
            (((spawnOnce (NewLimiter L ctr logger) nums).run sched).step i).goroutines[i]? =
              some g1 ∧ g1.phase ≠ g.phase) := by
  obtain ⟨i1, i2, i3, i4⟩ := spawnOnce_invariant L ctr logger nums
  obtain ⟨hA, hA2, hB, hC⟩ :=
    once_config_run_invariant (spawnOnce (NewLimiter L ctr logger) nums) sched ctr i1 i2 i3 i4
  generalize (spawnOnce (NewLimiter L ctr logger) nums).run sched = c at *
  refine ⟨?_, ?_⟩
  · rw [hB, any_pastCall, ← hC]
  · intro i g hg
    have hlt : i < c.goroutines.length := by
      by_contra hn
      rw [List.getElem?_eq_none (by omega)] at hg
      cases hg
    obtain ⟨hstay, hmove⟩ := once_step_waits i c.limiter c.onceHolder g
    refine ⟨?_, ?_, ?_⟩
    rotate_left
    · intro hw
      rw [once_config_step_eq c i g hg, hstay hw]
      simp only [set_of_getElem? c.goroutines i g hg]
    · intro hw hfin
      refine ⟨(g.step i c.limiter c.onceHolder).2.2, ?_, hmove hw hfin⟩
      rw [once_config_step_eq c i g hg]
      simp [List.getElem?_set, hlt]
    constructor
    · intro hw
      have hph : g.phase = .onceSlow := by
        cases hp : g.phase <;> simp_all [OncePhase.waits]
      refine ⟨hph, ?_⟩
      rw [hph] at hw
      simp only [OncePhase.waits, Option.isSome_iff_exists] at hw
      obtain ⟨j, hj⟩ := hw
      obtain ⟨h, hh⟩ := hA2 j hj
      have hin : h.phase.inGate = true := (hA j h hh).mpr hj
      have hji : j ≠ i := by
        rintro rfl
        rw [hg] at hh
        cases hh
        rw [hph] at hin
        cases hin
      refine ⟨j, h, hji, hh, hin, ?_⟩
      cases hp : h.phase <;> simp_all [OncePhase.waits, OncePhase.inGate]
    · rintro ⟨hph, j, h, _, hh, hin, _⟩
      rw [hph]
      simp only [OncePhase.waits, (hA j h hh).mp hin, Option.isSome_some]

/-- Instance of the amended C16: three goroutines call `Reserve(1)` on a limiter with limit 1
and counter 7. All add; goroutines 1 and 2 see a total above the limit; goroutine 2 locks the
gate, goroutine 1 waits, goroutine 2 calls `Inc`, stores `done` and unlocks; goroutine 1 then
locks, finds `done` set and skips the call. The counter ends at 8 with every call returned. -/
theorem failedCounter_once_with_gate_witness :
    ((spawnOnce (NewLimiter 1 7 none) [1, 1, 1]).run
        [0, 1, 2, 1, 2, 2, 1, 1, 2, 2, 2, 1, 1, 1, 0, 1, 2, 1, 2]).limiter.failedCounter = 8 ∧
      ((spawnOnce (NewLimiter 1 7 none) [1, 1, 1]).run
        [0, 1, 2, 1, 2, 2, 1, 1, 2, 2, 2, 1, 1, 1, 0, 1, 2, 1, 2]).goroutines.map
          OnceGoroutine.phase =
        [.finished none, .finished (some (limitExceededErrorf StatusUnprocessableEntity 1)),
          .finished (some (limitExceededErrorf StatusUnprocessableEntity 1))] ∧
      ((spawnOnce (NewLimiter 1 7 none) [1, 1, 1]).run
          [0, 1, 2, 1, 2, 2, 1, 1, 2, 2, 2, 1, 1, 1, 0, 1, 2, 1, 2]).limiter.failedCounter =
        7 + (if (((spawnOnce (NewLimiter 1 7 none) [1, 1, 1]).run
          [0, 1, 2, 1, 2, 2, 1, 1, 2, 2, 2, 1, 1, 1, 0, 1, 2, 1, 2]).goroutines.any
            fun g => g.phase.pastCall) then 1 else 0) :=
  ⟨by decide, by decide,
    (failedCounter_once_with_gate 1 7 none [1, 1, 1]
      [0, 1, 2, 1, 2, 2, 1, 1, 2, 2, 2, 1, 1, 1, 0, 1, 2, 1, 2]).1⟩

end storegateway
end Mimir
